import Mathlib

/-!
Shallow embedding of the Connect-Four minimax engine in
`connect4player.py` (class `ComputerPlayer`).

The board (`rack`) is column-major: `rack[i][j]` is column `i`, row `j`,
column 0 leftmost, row 0 at the bottom.  Cells are `0` (empty), `1` or `2`
(a disc of that player).  `shape = (numColumns, numRows)`.

Python mutates one shared numpy buffer; here every operation returns the
updated rack explicitly, paired with the boolean result the Python method
reports.  Scores are exact: quartet/board scores are integers as in the
source, and minimax values live in `ℚ` because Python's `score[0] / ply`
is true division.  The recursion of `_minimax` is expressed with an
explicit fuel argument (`minimaxAux`); `pickMove` supplies
`numColumns * numRows + 1` fuel, which dominates the real recursion depth
(every recursive call is preceded by placing a disc of a nonzero player,
and a full rack terminates).
-/

abbrev C4Rack := List (List Nat)

/-- Read cell `(col i, row j)`; out-of-range reads default to `0`.
Mirrors `rack[i][j]` on a well-shaped numpy array. -/
def getCell (rack : C4Rack) (i j : Nat) : Nat :=
  (rack.getD i []).getD j 0

/-- Write cell `(col i, row j)`; out-of-range writes are dropped. -/
def setCell (rack : C4Rack) (i j v : Nat) : C4Rack :=
  rack.set i ((rack.getD i []).set j v)

/-- A column is gravity-consistent when every cell above an empty cell is
also empty (the data-model invariant of the spec, section 3). -/
def gravityCol : List Nat → Bool
  | [] => true
  | x :: rest => if x = 0 then rest.all (fun y => y == 0) else gravityCol rest

/-- Well-shaped board satisfying the spec's data-model invariant: the
outer list has `shape.1` columns, each column has `shape.2` rows and is
gravity-consistent. -/
def boardOK (rack : C4Rack) (shape : Nat × Nat) : Prop :=
  rack.length = shape.1 ∧ (∀ c ∈ rack, c.length = shape.2) ∧
    (∀ c ∈ rack, gravityCol c = true)

instance (rack : C4Rack) (shape : Nat × Nat) : Decidable (boardOK rack shape) := by
  unfold boardOK
  infer_instance

/-- Embedding of `ComputerPlayer._make_move`.  Returns the rack after the
move together with the method's boolean result; a failed move leaves the
rack unchanged (in Python the buffer is simply not written). -/
def makeMove (rack : C4Rack) (col : Nat) (shape : Nat × Nat) (player : Nat) :
    C4Rack × Bool :=
  if getCell rack col (shape.2 - 1) ≠ 0 then (rack, false)
  else
    match (List.range shape.2).find? (fun j => getCell rack col j == 0) with
    | some j => (setCell rack col j player, true)
    | none => (rack, false)

/-- Embedding of `ComputerPlayer._unmake_move`: clear the topmost
occupied cell of the column, scanning from the top row downward. -/
def unmakeMove (rack : C4Rack) (col : Nat) (shape : Nat × Nat) :
    C4Rack × Bool :=
  match (List.range shape.2).reverse.find?
      (fun j => !(getCell rack col j == 0)) with
  | some j => (setCell rack col j 0, true)
  | none => (rack, false)

/-- Embedding of `ComputerPlayer._rack_full`: every column's top cell is
occupied. -/
def rackFull (rack : C4Rack) (shape : Nat × Nat) : Bool :=
  (List.range shape.1).all (fun i => !(getCell rack i (shape.2 - 1) == 0))

/-- Embedding of `ComputerPlayer._quartet_score` for engine id `ID`. -/
def quartetScore (ID d1 d2 d3 d4 : Nat) : Int × Bool :=
  if d1 = d2 ∧ d2 = d3 ∧ d3 = d4 then
    if d1 = 0 then (0, false)
    else if d1 = ID then (1000000000, true)
    else (-1000000000, true)
  else if (d1 = 1 ∨ d2 = 1 ∨ d3 = 1 ∨ d4 = 1) ∧
      (d1 = 2 ∨ d2 = 2 ∨ d3 = 2 ∨ d4 = 2) then (0, false)
  else
    let pid : Nat := if d1 = 1 ∨ d2 = 1 ∨ d3 = 1 ∨ d4 = 1 then 1 else 2
    let zeros : Nat := (if d1 = 0 then 1 else 0) + (if d2 = 0 then 1 else 0) +
      (if d3 = 0 then 1 else 0) + (if d4 = 0 then 1 else 0)
    if zeros = 3 then (if pid = ID then (1, false) else (-1, false))
    else if zeros = 2 then (if pid = ID then (10, false) else (-10, false))
    else (if pid = ID then (100, false) else (-100, false))

/-- Coordinates of a quartet: four `(col, row)` cells. -/
abbrev Quartet := (Nat × Nat) × (Nat × Nat) × (Nat × Nat) × (Nat × Nat)

/-- Vertical quartets, enumerated as in `_board_state_score` (outer loop
over columns, inner over base rows), skipped when fewer than 4 rows. -/
def vQuartets (shape : Nat × Nat) : List Quartet :=
  if shape.2 > 3 then
    (List.range shape.1).flatMap (fun i =>
      (List.range (shape.2 - 3)).map (fun j =>
        ((i, j), (i, j + 1), (i, j + 2), (i, j + 3))))
  else []

/-- Horizontal quartets, skipped when fewer than 4 columns. -/
def hQuartets (shape : Nat × Nat) : List Quartet :=
  if shape.1 > 3 then
    (List.range (shape.1 - 3)).flatMap (fun i =>
      (List.range shape.2).map (fun j =>
        ((i, j), (i + 1, j), (i + 2, j), (i + 3, j))))
  else []

/-- Rising (bottom-left to top-right) diagonal quartets. -/
def dUpQuartets (shape : Nat × Nat) : List Quartet :=
  if shape.1 > 3 ∧ shape.2 > 3 then
    (List.range (shape.1 - 3)).flatMap (fun i =>
      (List.range (shape.2 - 3)).map (fun j =>
        ((i, j), (i + 1, j + 1), (i + 2, j + 2), (i + 3, j + 3))))
  else []

/-- Falling (top-left to bottom-right) diagonal quartets; the Python
outer loop runs `i` over `range(3, shape[0])`. -/
def dDownQuartets (shape : Nat × Nat) : List Quartet :=
  if shape.1 > 3 ∧ shape.2 > 3 then
    (List.range' 3 (shape.1 - 3)).flatMap (fun i =>
      (List.range (shape.2 - 3)).map (fun j =>
        ((i, j), (i - 1, j + 1), (i - 2, j + 2), (i - 3, j + 3))))
  else []

/-- All quartets in the order `_board_state_score` visits them:
vertical, horizontal, rising diagonal, falling diagonal. -/
def allQuartets (shape : Nat × Nat) : List Quartet :=
  vQuartets shape ++ hQuartets shape ++ dUpQuartets shape ++
    dDownQuartets shape

/-- Score of the quartet at coordinates `q`. -/
def quartetAt (ID : Nat) (rack : C4Rack) (q : Quartet) : Int × Bool :=
  quartetScore ID (getCell rack q.1.1 q.1.2) (getCell rack q.2.1.1 q.2.1.2)
    (getCell rack q.2.2.1.1 q.2.2.1.2) (getCell rack q.2.2.2.1 q.2.2.2.2)

/-- Sequential scan of quartets with running total `acc`, returning a
winning quartet's result immediately, exactly as the loop nests of
`_board_state_score` do. -/
def scanQ (ID : Nat) (rack : C4Rack) : List Quartet → Int → Int × Bool
  | [], acc => (acc, false)
  | q :: rest, acc =>
    let t := quartetAt ID rack q
    if t.2 then t else scanQ ID rack rest (acc + t.1)

/-- Embedding of `ComputerPlayer._board_state_score`. -/
def boardStateScore (ID : Nat) (rack : C4Rack) (shape : Nat × Nat) :
    Int × Bool :=
  scanQ ID rack (allQuartets shape) 0

/-- One iteration of the column loop of `_minimax`: state is the working
rack together with the running high and low scores; `val` is the score of
the recursive call on the rack after the move. -/
def mmStep (shape : Nat × Nat) (player : Nat) (val : C4Rack → ℚ)
    (st : C4Rack × ℚ × ℚ) (i : Nat) : C4Rack × ℚ × ℚ :=
  let m := makeMove st.1 i shape player
  if m.2 then
    let s := val m.1
    ((unmakeMove m.1 i shape).1,
      (if s > st.2.1 then s else st.2.1),
      (if s < st.2.2 then s else st.2.2))
  else st

/-- Embedding of `ComputerPlayer._minimax` for engine id `ID` and ply
budget `MAXP`, with explicit recursion fuel. -/
def minimaxAux (ID MAXP : Nat) (shape : Nat × Nat) :
    Nat → C4Rack → Nat → ℚ
  | 0, _, _ => 0
  | fuel + 1, rack, ply =>
    let score := boardStateScore ID rack shape
    if score.2 then (score.1 : ℚ) / (ply : ℚ)
    else if rackFull rack shape then 0
    else if ply = MAXP then
      let score2 := boardStateScore ID rack shape
      if score2.2 then (score2.1 : ℚ) / (ply : ℚ) else (score2.1 : ℚ)
    else
      let player := if ply % 2 = 1 then (if ID = 1 then 2 else 1) else ID
      let res := (List.range shape.1).foldl
        (mmStep shape player
          (fun r => minimaxAux ID MAXP shape fuel r (ply + 1)))
        (rack, -(10000000000 : ℚ), (10000000000 : ℚ))
      if ID ≠ player then res.2.2 else res.2.1

/-- Variant of `_minimax` whose depth-cutoff branch returns the raw
aggregate score unconditionally, dropping the re-check for a win that the
top of the same call has already performed. -/
def minimaxRawCutoff (ID MAXP : Nat) (shape : Nat × Nat) :
    Nat → C4Rack → Nat → ℚ
  | 0, _, _ => 0
  | fuel + 1, rack, ply =>
    let score := boardStateScore ID rack shape
    if score.2 then (score.1 : ℚ) / (ply : ℚ)
    else if rackFull rack shape then 0
    else if ply = MAXP then ((boardStateScore ID rack shape).1 : ℚ)
    else
      let player := if ply % 2 = 1 then (if ID = 1 then 2 else 1) else ID
      let res := (List.range shape.1).foldl
        (mmStep shape player
          (fun r => minimaxRawCutoff ID MAXP shape fuel r (ply + 1)))
        (rack, -(10000000000 : ℚ), (10000000000 : ℚ))
      if ID ≠ player then res.2.2 else res.2.1

/-- One iteration of the root loop of `pick_move`: state is working rack,
incumbent best column and incumbent high score.  Only a strictly greater
score replaces the incumbent. -/
def pickStep (ID MAXP : Nat) (shape : Nat × Nat) (fuel : Nat)
    (st : C4Rack × Nat × ℚ) (i : Nat) : C4Rack × Nat × ℚ :=
  let m := makeMove st.1 i shape ID
  if m.2 then
    let s := minimaxAux ID MAXP shape fuel m.1 1
    ((unmakeMove m.1 i shape).1,
      (if s > st.2.2 then i else st.2.1),
      (if s > st.2.2 then s else st.2.2))
  else st

/-- Embedding of `ComputerPlayer.pick_move`.  Returns the chosen column
(`none` exactly on the Python `return None` path) together with the final
state of the engine's working board. -/
def pickMove (ID MAXP : Nat) (rack : C4Rack) : Option Nat × C4Rack :=
  let shape := (rack.length, (rack.headD []).length)
  if rackFull rack shape then (none, rack)
  else
    let fuel := shape.1 * shape.2 + 1
    let res := (List.range shape.1).foldl (pickStep ID MAXP shape fuel)
      (rack, 0, -(10000000000 : ℚ))
    (some res.2.1, res.1)

/-- A 7-wide, 6-tall board whose only discs are three engine discs
(id 1) at row 0 of columns 0, 1 and 2; column 3 is open. -/
def c10Board : C4Rack :=
  [[1, 0, 0, 0, 0, 0], [1, 0, 0, 0, 0, 0], [1, 0, 0, 0, 0, 0],
   [0, 0, 0, 0, 0, 0], [0, 0, 0, 0, 0, 0], [0, 0, 0, 0, 0, 0],
   [0, 0, 0, 0, 0, 0]]

/-- Like `c10Board` but with two extra engine discs stacked in column 0,
so that dropping in column 0 also wins immediately (vertically). -/
def c10CexBoard : C4Rack :=
  [[1, 1, 1, 0, 0, 0], [1, 0, 0, 0, 0, 0], [1, 0, 0, 0, 0, 0],
   [0, 0, 0, 0, 0, 0], [0, 0, 0, 0, 0, 0], [0, 0, 0, 0, 0, 0],
   [0, 0, 0, 0, 0, 0]]

/-- The child scores produced by attempting the columns of `l` in order on
`rack`, skipping full columns. -/
def mmScores (shape : Nat × Nat) (player : Nat) (val : C4Rack → ℚ)
    (rack : C4Rack) (l : List Nat) : List ℚ :=
  (l.filter (fun i => (makeMove rack i shape player).2)).map
    (fun i => val (makeMove rack i shape player).1)

/-! ### Basic list lemmas -/

theorem getD_set_eq {α : Type} (l : List α) (i : Nat) (v d : α)
    (h : i < l.length) : (l.set i v).getD i d = v := by
  induction l generalizing i with
  | nil => simp at h
  | cons x xs ih =>
    cases i with
    | zero => simp [List.set, List.getD]
    | succ n =>
      simp only [List.set, List.getD] at *
      exact ih n (by simpa using h)

theorem getD_set_ne {α : Type} (l : List α) (i j : Nat) (v d : α)
    (h : i ≠ j) : (l.set i v).getD j d = l.getD j d := by
  induction l generalizing i j with
  | nil => simp [List.set]
  | cons x xs ih =>
    cases i with
    | zero =>
      cases j with
      | zero => exact absurd rfl h
      | succ m => simp [List.set, List.getD_cons_succ]
    | succ n =>
      cases j with
      | zero => simp [List.set, List.getD_cons_zero]
      | succ m =>
        simp only [List.set, List.getD_cons_succ]
        exact ih n m (by omega)

theorem set_getD_self {α : Type} (l : List α) (i : Nat) (d : α) :
    l.set i (l.getD i d) = l := by
  induction l generalizing i with
  | nil => simp
  | cons x xs ih =>
    cases i with
    | zero => simp [List.set, List.getD_cons_zero]
    | succ n =>
      simp only [List.set, List.getD_cons_succ]
      rw [ih]

theorem mem_of_mem_set {α : Type} {l : List α} {i : Nat} {v x : α}
    (h : x ∈ l.set i v) : x = v ∨ x ∈ l := by
  induction l generalizing i with
  | nil => simp at h
  | cons y ys ih =>
    cases i with
    | zero =>
      rcases List.mem_cons.mp h with h' | h'
      · exact Or.inl h'
      · exact Or.inr (List.mem_cons_of_mem _ h')
    | succ n =>
      rcases List.mem_cons.mp h with h' | h'
      · exact Or.inr (h' ▸ List.mem_cons_self _ _)
      · rcases ih h' with h'' | h''
        · exact Or.inl h''
        · exact Or.inr (List.mem_cons_of_mem _ h'')

theorem getD_mem {α : Type} (l : List α) (i : Nat) (d : α)
    (h : i < l.length) : l.getD i d ∈ l := by
  induction l generalizing i with
  | nil => simp at h
  | cons x xs ih =>
    cases i with
    | zero => simp [List.getD_cons_zero]
    | succ n =>
      simp only [List.getD_cons_succ]
      exact List.mem_cons_of_mem _ (ih n (by simpa using h))

/-! ### Characterization of the scanning loops (`find?` over a range) -/

theorem find?_range_eq_some {p : Nat → Bool} {n j : Nat} :
    (List.range n).find? p = some j ↔
      j < n ∧ p j = true ∧ ∀ k, k < j → p k = false := by
  induction n generalizing j with
  | zero => simp [List.range_zero]
  | succ m ih =>
    rw [List.range_succ, List.find?_append]
    cases hfind : (List.range m).find? p with
    | some x =>
      have hx := ih.mp hfind
      simp only [Option.or_some]
      constructor
      · rintro h
        injection h with h
        subst h
        exact ⟨by omega, hx.2.1, hx.2.2⟩
      · rintro ⟨hj, hpj, hmin⟩
        have h1 : ¬ j < x := by
          intro hlt
          have := hx.2.2 j hlt
          simp [hpj] at this
        have h2 : ¬ x < j := by
          intro hlt
          have := hmin x hlt
          simp [hx.2.1] at this
        have : x = j := by omega
        rw [this]
    | none =>
      have hnone := List.find?_eq_none.mp hfind
      simp only [Option.none_or]
      constructor
      · intro h
        have hpj := List.find?_some h
        have hjm : j ∈ [m] := List.mem_of_find?_eq_some h
        have hjm : j = m := by simpa using hjm
        subst hjm
        refine ⟨by omega, hpj, fun k hk => ?_⟩
        cases hpk : p k with
        | false => rfl
        | true => exact absurd hpk (hnone k (List.mem_range.mpr hk))
      · rintro ⟨hj, hpj, hmin⟩
        have hjm : j = m := by
          by_contra hne
          have hjlt : j < m := by omega
          exact (hnone j (List.mem_range.mpr hjlt)) hpj
        subst hjm
        simp [List.find?, hpj]

theorem find?_revRange_eq_some {p : Nat → Bool} {n j : Nat} :
    (List.range n).reverse.find? p = some j ↔
      j < n ∧ p j = true ∧ ∀ k, j < k → k < n → p k = false := by
  induction n generalizing j with
  | zero => simp [List.range_zero]
  | succ m ih =>
    rw [List.range_succ, List.reverse_append]
    simp only [List.reverse_cons, List.reverse_nil, List.nil_append,
      List.singleton_append]
    rw [List.find?_cons]
    cases hpm : p m with
    | true =>
      constructor
      · intro h
        simp only at h
        injection h with h
        subst h
        exact ⟨by omega, hpm, fun k h1 h2 => by omega⟩
      · rintro ⟨hj, hpj, hmax⟩
        have : j = m := by
          by_contra hne
          have hjlt : j < m := by omega
          have := hmax m hjlt (by omega)
          simp [hpm] at this
        simp only []
        rw [this]
    | false =>
      simp only []
      rw [ih]
      constructor
      · rintro ⟨hj, hpj, hmax⟩
        refine ⟨by omega, hpj, fun k h1 h2 => ?_⟩
        rcases Nat.lt_or_ge k m with hk | hk
        · exact hmax k h1 hk
        · have : k = m := by omega
          rw [this, hpm]
      · rintro ⟨hj, hpj, hmax⟩
        have hjm : j ≠ m := by
          intro h
          rw [h, hpm] at hpj
          simp at hpj
        exact ⟨by omega, hpj, fun k h1 h2 => hmax k h1 (by omega)⟩

theorem find?_range_isSome (p : Nat → Bool) {n j : Nat} (hj : j < n)
    (hpj : p j = true) : ∃ j', (List.range n).find? p = some j' := by
  cases hfind : (List.range n).find? p with
  | some x => exact ⟨x, rfl⟩
  | none =>
    exact absurd hpj (by
      have := List.find?_eq_none.mp hfind j (List.mem_range.mpr hj)
      simpa using this)

/-! ### Gravity-invariant lemmas -/

theorem all_zero_iff_getD {l : List Nat} :
    (l.all (fun y => y == 0)) = true ↔ ∀ k, l.getD k 0 = 0 := by
  induction l with
  | nil => simp [List.getD]
  | cons x xs ih =>
    simp only [List.all_cons, Bool.and_eq_true, beq_iff_eq, ih]
    constructor
    · rintro ⟨hx, hxs⟩ k
      cases k with
      | zero => simpa [List.getD_cons_zero] using hx
      | succ m => simpa [List.getD_cons_succ] using hxs m
    · intro h
      refine ⟨by simpa [List.getD_cons_zero] using h 0, fun k => ?_⟩
      simpa [List.getD_cons_succ] using h (k + 1)

theorem gravity_tail {c : List Nat} (hg : gravityCol c = true) {j : Nat}
    (hz : c.getD j 0 = 0) : ∀ k, j ≤ k → c.getD k 0 = 0 := by
  induction c generalizing j with
  | nil => intro k _; simp [List.getD]
  | cons x xs ih =>
    intro k hk
    by_cases hx : x = 0
    · have hall : ∀ m, xs.getD m 0 = 0 := by
        rw [gravityCol, if_pos hx] at hg
        exact all_zero_iff_getD.mp hg
      cases k with
      | zero => simpa [List.getD_cons_zero] using hx
      | succ m => simpa [List.getD_cons_succ] using hall m
    · have hg' : gravityCol xs = true := by
        rwa [gravityCol, if_neg hx] at hg
      cases j with
      | zero => exact absurd (by simpa [List.getD_cons_zero] using hz) hx
      | succ j' =>
        cases k with
        | zero => omega
        | succ m =>
          rw [List.getD_cons_succ] at hz ⊢
          exact ih hg' hz m (by omega)

theorem gravityCol_of_getD {c : List Nat}
    (h : ∀ j k, j ≤ k → c.getD j 0 = 0 → c.getD k 0 = 0) :
    gravityCol c = true := by
  induction c with
  | nil => rfl
  | cons x xs ih =>
    by_cases hx : x = 0
    · rw [gravityCol, if_pos hx]
      refine all_zero_iff_getD.mpr fun k => ?_
      have := h 0 (k + 1) (by omega) (by simpa [List.getD_cons_zero] using hx)
      simpa [List.getD_cons_succ] using this
    · rw [gravityCol, if_neg hx]
      refine ih fun j k hjk hz => ?_
      have := h (j + 1) (k + 1) (by omega)
        (by simpa [List.getD_cons_succ] using hz)
      simpa [List.getD_cons_succ] using this

/-! ### Move simulator lemmas -/

theorem makeMove_succ_iff (rack : C4Rack) (col : Nat) (shape : Nat × Nat)
    (player : Nat) :
    (makeMove rack col shape player).2 = true ↔
      getCell rack col (shape.2 - 1) = 0 ∧ 1 ≤ shape.2 := by
  by_cases htop : getCell rack col (shape.2 - 1) ≠ 0
  · simp [makeMove, htop]
  · push_neg at htop
    rcases Nat.eq_zero_or_pos shape.2 with hr | hr
    · have : (List.range shape.2).find?
          (fun j => getCell rack col j == 0) = none := by
        rw [hr]; simp [List.range_zero]
      simp [makeMove, htop, this, hr]
    · have hjlt : shape.2 - 1 < shape.2 := by omega
      have hpj : ((fun j => getCell rack col j == 0) (shape.2 - 1)) = true := by
        simpa using htop
      obtain ⟨j', hj'⟩ := find?_range_isSome
        (fun j => getCell rack col j == 0) hjlt hpj
      simp only [makeMove, htop, hj', if_neg (by simp [htop] : ¬getCell rack col (shape.2 - 1) ≠ 0)]
      simp
      omega

theorem makeMove_fail_fst {rack : C4Rack} {col : Nat} {shape : Nat × Nat}
    {player : Nat} (h : (makeMove rack col shape player).2 = false) :
    (makeMove rack col shape player).1 = rack := by
  by_cases htop : getCell rack col (shape.2 - 1) ≠ 0
  · simp [makeMove, htop]
  · push_neg at htop
    cases hfind : (List.range shape.2).find?
        (fun j => getCell rack col j == 0) with
    | some j => simp [makeMove, htop, hfind] at h
    | none => simp [makeMove, htop, hfind]

theorem rackFull_false_iff {rack : C4Rack} {shape : Nat × Nat} :
    rackFull rack shape = false ↔
      ∃ i, i < shape.1 ∧ getCell rack i (shape.2 - 1) = 0 := by
  rw [← Bool.not_eq_true, rackFull, List.all_eq_true]
  constructor
  · intro h
    push_neg at h
    obtain ⟨i, hi, hp⟩ := h
    exact ⟨i, List.mem_range.mp hi, by simpa using hp⟩
  · rintro ⟨i, hi, hz⟩ hall
    have := hall i (List.mem_range.mpr hi)
    simp [hz] at this

/-- Core round-trip property: a successful `makeMove` followed by
`unmakeMove` on the same column restores the rack exactly, provided the
column is gravity-consistent, has the declared number of rows, and the
placed disc is nonzero. -/
theorem make_unmake_state (rack : C4Rack) (col : Nat) (shape : Nat × Nat)
    (player : Nat) (hplayer : player ≠ 0)
    (hclen : (rack.getD col []).length = shape.2)
    (hgrav : gravityCol (rack.getD col []) = true)
    (hsucc : (makeMove rack col shape player).2 = true) :
    unmakeMove (makeMove rack col shape player).1 col shape = (rack, true) := by
  obtain ⟨htop, hrows⟩ := (makeMove_succ_iff rack col shape player).mp hsucc
  have hne : ¬ getCell rack col (shape.2 - 1) ≠ 0 := by simp [htop]
  cases hfind : (List.range shape.2).find?
      (fun j => getCell rack col j == 0) with
  | none => simp [makeMove, hne, hfind] at hsucc
  | some j0 =>
    obtain ⟨hj0, hpj0, hmin⟩ := find?_range_eq_some.mp hfind
    have hz0 : getCell rack col j0 = 0 := by simpa using hpj0
    have hfst : (makeMove rack col shape player).1 =
        setCell rack col j0 player := by
      simp [makeMove, hne, hfind]
    have hcol : col < rack.length := by
      by_contra hge
      push_neg at hge
      have hnil : rack.getD col [] = [] := List.getD_eq_default _ _ hge
      rw [hnil] at hclen
      simp at hclen
      omega
    have hcget : (rack.set col ((rack.getD col []).set j0 player)).getD col []
        = (rack.getD col []).set j0 player := getD_set_eq rack col _ [] hcol
    have hcell : ∀ k, getCell (setCell rack col j0 player) col k =
        ((rack.getD col []).set j0 player).getD k 0 := by
      intro k
      rw [setCell, getCell, hcget]
    have hz0' : (rack.getD col []).getD j0 0 = 0 := hz0
    have hat : ((rack.getD col []).set j0 player).getD j0 0 = player :=
      getD_set_eq _ j0 player 0 (by rw [hclen]; exact hj0)
    have habove : ∀ k, j0 < k →
        ((rack.getD col []).set j0 player).getD k 0 = 0 := by
      intro k hk
      rw [getD_set_ne _ j0 k player 0 (by omega)]
      exact gravity_tail hgrav hz0' k (Nat.le_of_lt hk)
    have hrev : (List.range shape.2).reverse.find?
        (fun j => !(getCell (setCell rack col j0 player) col j == 0)) =
          some j0 := by
      apply find?_revRange_eq_some.mpr
      refine ⟨hj0, ?_, ?_⟩
      · show (!(getCell (setCell rack col j0 player) col j0 == 0)) = true
        rw [hcell j0, hat]
        simpa using hplayer
      · intro k h1 h2
        show (!(getCell (setCell rack col j0 player) col k == 0)) = false
        rw [hcell k, habove k h1]
        simp
    rw [hfst]
    rw [unmakeMove, hrev]
    have hrestore : setCell (setCell rack col j0 player) col j0 0 = rack := by
      rw [setCell, setCell, hcget, List.set_set, List.set_set]
      have hback : (rack.getD col []).set j0 0 = rack.getD col [] := by
        conv_lhs => rw [← hz0']
        exact set_getD_self _ j0 0
      rw [hback, set_getD_self]
    show (setCell (setCell rack col j0 player) col j0 0, true) = (rack, true)
    rw [hrestore]

theorem mem_set_strong {α : Type} {l : List α} {i : Nat} {v x : α}
    (h : x ∈ l.set i v) : (i < l.length ∧ x = v) ∨ x ∈ l := by
  induction l generalizing i with
  | nil => simp at h
  | cons y ys ih =>
    cases i with
    | zero =>
      rcases List.mem_cons.mp h with h' | h'
      · exact Or.inl ⟨by simp, h'⟩
      · exact Or.inr (List.mem_cons_of_mem _ h')
    | succ n =>
      rcases List.mem_cons.mp h with h' | h'
      · exact Or.inr (h' ▸ List.mem_cons_self _ _)
      · rcases ih h' with ⟨h1, h2⟩ | h''
        · exact Or.inl ⟨by simpa using Nat.succ_lt_succ h1, h2⟩
        · exact Or.inr (List.mem_cons_of_mem _ h'')

/-- A successful or failed `makeMove` preserves the board invariant
(shape and gravity), as long as the placed disc is nonzero. -/
theorem makeMove_boardOK (rack : C4Rack) (col : Nat) (shape : Nat × Nat)
    (player : Nat) (hOK : boardOK rack shape) (hplayer : player ≠ 0) :
    boardOK (makeMove rack col shape player).1 shape := by
  cases hs : (makeMove rack col shape player).2 with
  | false => rw [makeMove_fail_fst hs]; exact hOK
  | true =>
    obtain ⟨htop, hrows⟩ := (makeMove_succ_iff rack col shape player).mp hs
    have hne : ¬ getCell rack col (shape.2 - 1) ≠ 0 := by simp [htop]
    cases hfind : (List.range shape.2).find?
        (fun j => getCell rack col j == 0) with
    | none => simp [makeMove, hne, hfind] at hs
    | some j0 =>
      obtain ⟨hj0, hpj0, hmin⟩ := find?_range_eq_some.mp hfind
      have hz0 : getCell rack col j0 = 0 := by simpa using hpj0
      have hz0' : (rack.getD col []).getD j0 0 = 0 := hz0
      have hfst : (makeMove rack col shape player).1 =
          setCell rack col j0 player := by
        simp [makeMove, hne, hfind]
      rw [hfst, setCell]
      obtain ⟨hlen, hcl, hgr⟩ := hOK
      refine ⟨by rw [List.length_set]; exact hlen, ?_, ?_⟩
      · intro c' hc'
        rcases mem_set_strong hc' with ⟨hcol, rfl⟩ | hmem
        · rw [List.length_set]
          exact hcl _ (getD_mem rack col [] hcol)
        · exact hcl _ hmem
      · intro c' hc'
        rcases mem_set_strong hc' with ⟨hcol, rfl⟩ | hmem
        · have hcmem := getD_mem rack col [] hcol
          have hclen : (rack.getD col []).length = shape.2 := hcl _ hcmem
          have hgrav : gravityCol (rack.getD col []) = true := hgr _ hcmem
          apply gravityCol_of_getD
          intro j k hjk hz
          by_cases hjj0 : j = j0
          · subst hjj0
            rw [getD_set_eq _ j player 0 (by omega)] at hz
            exact absurd hz hplayer
          · rw [getD_set_ne _ j0 j player 0 (fun h => hjj0 h.symm)] at hz
            have hjgt : j0 < j := by
              rcases Nat.lt_trichotomy j j0 with h | h | h
              · have hm := hmin j h
                simp only [beq_eq_false_iff_ne, ne_eq] at hm
                exact absurd hz hm
              · exact absurd h hjj0
              · exact h
            by_cases hkj0 : k = j0
            · omega
            · rw [getD_set_ne _ j0 k player 0 (fun h => hkj0 h.symm)]
              exact gravity_tail hgrav hz0' k (by omega)
        · exact hgr _ hmem

/-! ### Folded maximum / minimum lemmas -/

theorem foldl_max_init_le {α : Type} [LinearOrder α] (l : List α) (a : α) :
    a ≤ l.foldl max a := by
  induction l generalizing a with
  | nil => exact le_refl a
  | cons x xs ih => exact le_trans (le_max_left a x) (ih (max a x))

theorem le_foldl_max {α : Type} [LinearOrder α] (l : List α) (a x : α)
    (hx : x ∈ l) : x ≤ l.foldl max a := by
  induction l generalizing a with
  | nil => simp at hx
  | cons y ys ih =>
    rcases List.mem_cons.mp hx with rfl | h
    · exact le_trans (le_max_right a x) (foldl_max_init_le ys (max a x))
    · exact ih (max a y) h

theorem foldl_max_le {α : Type} [LinearOrder α] (l : List α) (a b : α)
    (ha : a ≤ b) (h : ∀ x ∈ l, x ≤ b) : l.foldl max a ≤ b := by
  induction l generalizing a with
  | nil => exact ha
  | cons y ys ih =>
    exact ih (max a y) (max_le ha (h y (List.mem_cons_self y ys)))
      (fun x hx => h x (List.mem_cons_of_mem y hx))

theorem foldl_max_mem {α : Type} [LinearOrder α] (l : List α) (a : α) :
    l.foldl max a = a ∨ l.foldl max a ∈ l := by
  induction l generalizing a with
  | nil => exact Or.inl rfl
  | cons y ys ih =>
    rcases ih (max a y) with h | h
    · rcases max_choice a y with hm | hm
      · exact Or.inl (by rw [List.foldl_cons, h, hm])
      · exact Or.inr (by rw [List.foldl_cons, h, hm]; exact
          List.mem_cons_self y ys)
    · exact Or.inr (List.mem_cons_of_mem y h)

theorem foldl_min_le_init {α : Type} [LinearOrder α] (l : List α) (a : α) :
    l.foldl min a ≤ a := by
  induction l generalizing a with
  | nil => exact le_refl a
  | cons x xs ih => exact le_trans (ih (min a x)) (min_le_left a x)

theorem foldl_min_le {α : Type} [LinearOrder α] (l : List α) (a x : α)
    (hx : x ∈ l) : l.foldl min a ≤ x := by
  induction l generalizing a with
  | nil => simp at hx
  | cons y ys ih =>
    rcases List.mem_cons.mp hx with rfl | h
    · exact le_trans (foldl_min_le_init ys (min a x)) (min_le_right a x)
    · exact ih (min a y) h

theorem le_foldl_min {α : Type} [LinearOrder α] (l : List α) (a b : α)
    (ha : b ≤ a) (h : ∀ x ∈ l, b ≤ x) : b ≤ l.foldl min a := by
  induction l generalizing a with
  | nil => exact ha
  | cons y ys ih =>
    exact ih (min a y) (le_min ha (h y (List.mem_cons_self y ys)))
      (fun x hx => h x (List.mem_cons_of_mem y hx))

theorem foldl_min_mem {α : Type} [LinearOrder α] (l : List α) (a : α) :
    l.foldl min a = a ∨ l.foldl min a ∈ l := by
  induction l generalizing a with
  | nil => exact Or.inl rfl
  | cons y ys ih =>
    rcases ih (min a y) with h | h
    · rcases min_choice a y with hm | hm
      · exact Or.inl (by rw [List.foldl_cons, h, hm])
      · exact Or.inr (by rw [List.foldl_cons, h, hm]; exact
          List.mem_cons_self y ys)
    · exact Or.inr (List.mem_cons_of_mem y h)

theorem ite_gt_eq_max (s a : ℚ) : (if s > a then s else a) = max a s := by
  rcases le_or_lt s a with h | h
  · rw [if_neg (not_lt.mpr h), max_eq_left h]
  · rw [if_pos h, max_eq_right (le_of_lt h)]

theorem ite_lt_eq_min (s a : ℚ) : (if s < a then s else a) = min a s := by
  rcases le_or_lt a s with h | h
  · rw [if_neg (not_lt.mpr h), min_eq_left h]
  · rw [if_pos h, min_eq_right (le_of_lt h)]

/-! ### Characterization of the column loop of `_minimax` -/

theorem mmFold_spec (shape : Nat × Nat) (player : Nat) (val : C4Rack → ℚ)
    (rack : C4Rack) (hplayer : player ≠ 0)
    (hcl : ∀ c ∈ rack, c.length = shape.2)
    (hgr : ∀ c ∈ rack, gravityCol c = true) :
    ∀ l : List Nat, (∀ i ∈ l, i < rack.length) → ∀ hi lo : ℚ,
      List.foldl (mmStep shape player val) (rack, hi, lo) l =
        (rack, (mmScores shape player val rack l).foldl max hi,
          (mmScores shape player val rack l).foldl min lo) := by
  intro l
  induction l with
  | nil => intro _ hi lo; simp [mmScores]
  | cons i l' ih =>
    intro hl hi lo
    cases hs : (makeMove rack i shape player).2 with
    | false =>
      have hstep : mmStep shape player val (rack, hi, lo) i = (rack, hi, lo) := by
        simp [mmStep, hs]
      rw [List.foldl_cons, hstep]
      have hsc : mmScores shape player val rack (i :: l') =
          mmScores shape player val rack l' := by
        simp [mmScores, List.filter_cons, hs]
      rw [hsc]
      exact ih (fun x hx => hl x (List.mem_cons_of_mem i hx)) hi lo
    | true =>
      have hmem := getD_mem rack i [] (hl i (List.mem_cons_self i l'))
      have hrt := make_unmake_state rack i shape player hplayer
        (hcl _ hmem) (hgr _ hmem) hs
      have hstep : mmStep shape player val (rack, hi, lo) i =
          (rack, max hi (val (makeMove rack i shape player).1),
            min lo (val (makeMove rack i shape player).1)) := by
        simp only [mmStep, hs, if_true]
        rw [hrt, ite_gt_eq_max, ite_lt_eq_min]
      rw [List.foldl_cons, hstep]
      have hsc : mmScores shape player val rack (i :: l') =
          val (makeMove rack i shape player).1 ::
            mmScores shape player val rack l' := by
        simp [mmScores, List.filter_cons, hs]
      rw [hsc, List.foldl_cons, List.foldl_cons]
      exact ih (fun x hx => hl x (List.mem_cons_of_mem i hx)) _ _

/-! ### Static-evaluator lemmas -/

theorem quartet_win_val (ID a b c d : Nat)
    (h : (quartetScore ID a b c d).2 = true) :
    (quartetScore ID a b c d).1 = 1000000000 ∨
      (quartetScore ID a b c d).1 = -1000000000 := by
  by_cases h1 : a = b ∧ b = c ∧ c = d
  · by_cases h2 : a = 0
    · exfalso
      rw [quartetScore, if_pos h1, if_pos h2] at h
      simp at h
    · by_cases h3 : a = ID
      · rw [quartetScore, if_pos h1, if_neg h2, if_pos h3]
        exact Or.inl rfl
      · rw [quartetScore, if_pos h1, if_neg h2, if_neg h3]
        exact Or.inr rfl
  · exfalso
    rw [quartetScore, if_neg h1] at h
    simp only [apply_ite Prod.snd] at h
    split_ifs at h

theorem quartet_nonwin_bound (ID a b c d : Nat)
    (h : (quartetScore ID a b c d).2 = false) :
    -100 ≤ (quartetScore ID a b c d).1 ∧
      (quartetScore ID a b c d).1 ≤ 100 := by
  by_cases h1 : a = b ∧ b = c ∧ c = d
  · by_cases h2 : a = 0
    · rw [quartetScore, if_pos h1, if_pos h2]
      norm_num
    · by_cases h3 : a = ID
      · exfalso
        rw [quartetScore, if_pos h1, if_neg h2, if_pos h3] at h
        simp at h
      · exfalso
        rw [quartetScore, if_pos h1, if_neg h2, if_neg h3] at h
        simp at h
  · rw [quartetScore, if_neg h1]
    by_cases hmix : (a = 1 ∨ b = 1 ∨ c = 1 ∨ d = 1) ∧
        (a = 2 ∨ b = 2 ∨ c = 2 ∨ d = 2)
    · rw [if_pos hmix]
      norm_num
    · rw [if_neg hmix]
      have key : ∀ pid zeros : Nat,
          -100 ≤ ((if zeros = 3 then
              (if pid = ID then ((1 : Int), false) else (-1, false))
            else if zeros = 2 then
              (if pid = ID then ((10 : Int), false) else (-10, false))
            else (if pid = ID then ((100 : Int), false)
              else (-100, false))).1) ∧
          ((if zeros = 3 then
              (if pid = ID then ((1 : Int), false) else (-1, false))
            else if zeros = 2 then
              (if pid = ID then ((10 : Int), false) else (-10, false))
            else (if pid = ID then ((100 : Int), false)
              else (-100, false))).1) ≤ 100 := by
        intro pid zeros
        split_ifs <;> norm_num
      exact key _ _

theorem scanQ_nowin (ID : Nat) (rack : C4Rack) :
    ∀ (l : List Quartet) (acc : Int),
      (∀ q ∈ l, (quartetAt ID rack q).2 = false) →
      scanQ ID rack l acc =
        (acc + (l.map (fun q => (quartetAt ID rack q).1)).sum, false) := by
  intro l
  induction l with
  | nil => intro acc _; simp [scanQ]
  | cons q rest ih =>
    intro acc hq
    have hq0 : (quartetAt ID rack q).2 = false :=
      hq q (List.mem_cons_self q rest)
    rw [scanQ]
    simp only [hq0, Bool.false_eq_true, if_false]
    rw [ih (acc + (quartetAt ID rack q).1)
      (fun x hx => hq x (List.mem_cons_of_mem q hx))]
    simp only [List.map_cons, List.sum_cons]
    ring_nf

theorem scanQ_win (ID : Nat) (rack : C4Rack) :
    ∀ (l : List Quartet) (acc : Int) (q0 : Quartet),
      l.find? (fun q => (quartetAt ID rack q).2) = some q0 →
      scanQ ID rack l acc = quartetAt ID rack q0 := by
  intro l
  induction l with
  | nil => intro acc q0 h; simp at h
  | cons q rest ih =>
    intro acc q0 h
    rw [List.find?_cons] at h
    cases hq : (quartetAt ID rack q).2 with
    | true =>
      rw [hq] at h
      simp only at h
      injection h with h
      subst h
      rw [scanQ]
      simp [hq]
    | false =>
      rw [hq] at h
      simp only at h
      rw [scanQ]
      simp only [hq, Bool.false_eq_true, if_false]
      exact ih _ q0 h

theorem scanQ_result_win (ID : Nat) (rack : C4Rack) :
    ∀ (l : List Quartet) (acc s : Int),
      scanQ ID rack l acc = (s, true) →
      ∃ q ∈ l, quartetAt ID rack q = (s, true) := by
  intro l
  induction l with
  | nil => intro acc s h; simp [scanQ] at h
  | cons q rest ih =>
    intro acc s h
    rw [scanQ] at h
    cases hq : (quartetAt ID rack q).2 with
    | true =>
      rw [hq] at h
      simp only [if_true] at h
      exact ⟨q, List.mem_cons_self q rest, h⟩
    | false =>
      rw [hq] at h
      simp only [Bool.false_eq_true, if_false] at h
      obtain ⟨q', hmem, hval⟩ := ih _ s h
      exact ⟨q', List.mem_cons_of_mem q hmem, hval⟩

theorem scanQ_bound (ID : Nat) (rack : C4Rack) :
    ∀ (l : List Quartet) (acc s : Int),
      scanQ ID rack l acc = (s, false) →
      acc - 100 * l.length ≤ s ∧ s ≤ acc + 100 * l.length := by
  intro l
  induction l with
  | nil =>
    intro acc s h
    rw [scanQ] at h
    injection h with h1 _
    subst h1
    simp
  | cons q rest ih =>
    intro acc s h
    rw [scanQ] at h
    cases hq : (quartetAt ID rack q).2 with
    | true =>
      rw [hq] at h
      simp only [if_true] at h
      rw [Prod.ext_iff] at h
      obtain ⟨_, h2⟩ := h
      rw [hq] at h2
      simp at h2
    | false =>
      rw [hq] at h
      simp only [Bool.false_eq_true, if_false] at h
      have hb : -100 ≤ (quartetAt ID rack q).1 ∧
          (quartetAt ID rack q).1 ≤ 100 :=
        quartet_nonwin_bound ID _ _ _ _ hq
      have hih := ih (acc + (quartetAt ID rack q).1) s h
      simp only [List.length_cons]
      push_cast
      push_cast at hih
      omega

theorem bss_win_val (ID : Nat) (rack : C4Rack) (shape : Nat × Nat)
    (h : (boardStateScore ID rack shape).2 = true) :
    (boardStateScore ID rack shape).1 = 1000000000 ∨
      (boardStateScore ID rack shape).1 = -1000000000 := by
  rcases hb : boardStateScore ID rack shape with ⟨s, w⟩
  rw [hb] at h
  simp only at h
  subst h
  obtain ⟨q, _, hval⟩ := scanQ_result_win ID rack (allQuartets shape) 0 s hb
  have hw : (quartetAt ID rack q).2 = true := by rw [hval]
  have hv := quartet_win_val ID (getCell rack q.1.1 q.1.2)
    (getCell rack q.2.1.1 q.2.1.2) (getCell rack q.2.2.1.1 q.2.2.1.2)
    (getCell rack q.2.2.2.1 q.2.2.2.2) hw
  have h1 : (quartetAt ID rack q).1 = s := by rw [hval]
  show s = 1000000000 ∨ s = -1000000000
  rw [← h1]
  exact hv

theorem bss_nowin_bound (ID : Nat) (rack : C4Rack) (shape : Nat × Nat)
    (s : Int) (h : boardStateScore ID rack shape = (s, false)) :
    -(100 * ((allQuartets shape).length : Int)) ≤ s ∧
      s ≤ 100 * ((allQuartets shape).length : Int) := by
  have := scanQ_bound ID rack (allQuartets shape) 0 s h
  omega

/-! ### Value bounds for the search -/

theorem player_ne_zero (ID ply : Nat) (hID : ID = 1 ∨ ID = 2) :
    (if ply % 2 = 1 then (if ID = 1 then 2 else 1) else ID) ≠ 0 := by
  rcases hID with rfl | rfl <;> split_ifs <;> simp

theorem exists_legal (rack : C4Rack) (shape : Nat × Nat) (player : Nat)
    (hnf : rackFull rack shape = false) (hrows : 1 ≤ shape.2) :
    ∃ i ∈ List.range shape.1, (makeMove rack i shape player).2 = true := by
  obtain ⟨i, hi, hz⟩ := rackFull_false_iff.mp hnf
  exact ⟨i, List.mem_range.mpr hi,
    (makeMove_succ_iff rack i shape player).mpr ⟨hz, hrows⟩⟩

theorem mmScores_ne_nil (shape : Nat × Nat) (player : Nat)
    (val : C4Rack → ℚ) (rack : C4Rack)
    (hnf : rackFull rack shape = false) (hrows : 1 ≤ shape.2) :
    mmScores shape player val rack (List.range shape.1) ≠ [] := by
  obtain ⟨i, hi, hs⟩ := exists_legal rack shape player hnf hrows
  have : i ∈ (List.range shape.1).filter
      (fun i => (makeMove rack i shape player).2) :=
    List.mem_filter.mpr ⟨hi, hs⟩
  intro hnil
  rw [mmScores, List.map_eq_nil_iff] at hnil
  rw [hnil] at this
  simp at this

theorem mmScores_elt (shape : Nat × Nat) (player : Nat) (val : C4Rack → ℚ)
    (rack : C4Rack) (l : List Nat) (x : ℚ)
    (hx : x ∈ mmScores shape player val rack l) :
    ∃ i ∈ l, (makeMove rack i shape player).2 = true ∧
      x = val (makeMove rack i shape player).1 := by
  rw [mmScores] at hx
  obtain ⟨i, hi, hval⟩ := List.mem_map.mp hx
  obtain ⟨hil, hsucc⟩ := List.mem_filter.mp hi
  exact ⟨i, hil, hsucc, hval.symm⟩

theorem minimax_bound (ID MAXP : Nat) (shape : Nat × Nat)
    (hID : ID = 1 ∨ ID = 2) :
    ∀ (fuel : Nat) (rack : C4Rack) (ply : Nat), boardOK rack shape →
      1 ≤ shape.2 → 1 ≤ ply →
      -(max ((1000000000 : ℚ) / (ply : ℚ))
          (100 * ((allQuartets shape).length : ℚ)))
        ≤ minimaxAux ID MAXP shape fuel rack ply ∧
      minimaxAux ID MAXP shape fuel rack ply
        ≤ max ((1000000000 : ℚ) / (ply : ℚ))
          (100 * ((allQuartets shape).length : ℚ)) := by
  intro fuel
  induction fuel with
  | zero =>
    intro rack ply _ _ hply
    have hpos : (0 : ℚ) < (1000000000 : ℚ) / (ply : ℚ) := by
      apply div_pos (by norm_num)
      exact_mod_cast hply
    constructor
    · show -(max _ _) ≤ (0 : ℚ)
      have : (0:ℚ) ≤ max ((1000000000 : ℚ) / (ply : ℚ))
          (100 * ((allQuartets shape).length : ℚ)) :=
        le_max_of_le_left (le_of_lt hpos)
      linarith
    · exact le_max_of_le_left (le_of_lt hpos)
  | succ fuel ih =>
    intro rack ply hOK hrows hply
    have hplypos : (0 : ℚ) < (ply : ℚ) := by exact_mod_cast hply
    have hcappos : (0 : ℚ) < (1000000000 : ℚ) / (ply : ℚ) :=
      div_pos (by norm_num) hplypos
    have hBpos : (0:ℚ) < max ((1000000000 : ℚ) / (ply : ℚ))
        (100 * ((allQuartets shape).length : ℚ)) :=
      lt_max_of_lt_left hcappos
    by_cases hwin : (boardStateScore ID rack shape).2 = true
    · rw [minimaxAux]
      simp only [hwin, if_true]
      rcases bss_win_val ID rack shape hwin with hv | hv <;> rw [hv]
      · constructor
        · push_cast
          calc -(max ((1000000000 : ℚ) / (ply : ℚ))
                (100 * ((allQuartets shape).length : ℚ))) ≤ 0 := by linarith
            _ ≤ (1000000000 : ℚ) / (ply : ℚ) := le_of_lt hcappos
        · push_cast
          exact le_max_left _ _
      · constructor
        · push_cast
          rw [neg_div]
          exact neg_le_neg (le_max_left _ _)
        · push_cast
          rw [neg_div]
          calc -((1000000000 : ℚ) / (ply : ℚ)) ≤ 0 := by linarith
            _ ≤ _ := le_of_lt hBpos
    · by_cases hfull : rackFull rack shape = true
      · rw [minimaxAux]
        simp only [hwin, hfull, if_true, Bool.false_eq_true, if_false]
        exact ⟨by linarith, le_of_lt hBpos⟩
      · by_cases hcut : ply = MAXP
        · rw [minimaxAux]
          simp only [hwin, hfull, Bool.false_eq_true, if_false]
          rw [if_pos hcut]
          have hnw : boardStateScore ID rack shape =
              ((boardStateScore ID rack shape).1, false) := by
            rw [Prod.ext_iff]
            exact ⟨rfl, by simpa using hwin⟩
          obtain ⟨hlo, hhi⟩ := bss_nowin_bound ID rack shape _ hnw
          have hloQ : -(100 * ((allQuartets shape).length : ℚ)) ≤
              ((boardStateScore ID rack shape).1 : ℚ) := by
            exact_mod_cast hlo
          have hhiQ : ((boardStateScore ID rack shape).1 : ℚ) ≤
              100 * ((allQuartets shape).length : ℚ) := by
            exact_mod_cast hhi
          constructor
          · calc -(max ((1000000000 : ℚ) / (ply : ℚ))
                  (100 * ((allQuartets shape).length : ℚ)))
                ≤ -(100 * ((allQuartets shape).length : ℚ)) :=
                  neg_le_neg (le_max_right _ _)
              _ ≤ _ := hloQ
          · exact le_trans hhiQ (le_max_right _ _)
        · -- recursive case
          rw [minimaxAux]
          simp only [hwin, hfull, hcut, Bool.false_eq_true, if_false]
          obtain ⟨hlen, hcl, hgr⟩ := hOK
          have hplayer := player_ne_zero ID ply hID
          set player := (if ply % 2 = 1 then (if ID = 1 then 2 else 1) else ID)
            with hpl
          have hfold := mmFold_spec shape player
            (fun r => minimaxAux ID MAXP shape fuel r (ply + 1))
            rack hplayer hcl hgr (List.range shape.1)
            (fun i hi => by rw [hlen]; exact List.mem_range.mp hi)
            (-(10000000000 : ℚ)) (10000000000 : ℚ)
          rw [hfold]
          have hcap1 : (1000000000 : ℚ) / ((ply : ℚ) + 1) ≤
              (1000000000 : ℚ) / (ply : ℚ) := by
            apply div_le_div_of_nonneg_left (by norm_num) hplypos
            linarith
          have helt : ∀ x ∈ mmScores shape player
              (fun r => minimaxAux ID MAXP shape fuel r (ply + 1))
              rack (List.range shape.1),
              -(max ((1000000000 : ℚ) / (ply : ℚ))
                (100 * ((allQuartets shape).length : ℚ))) ≤ x ∧
              x ≤ max ((1000000000 : ℚ) / (ply : ℚ))
                (100 * ((allQuartets shape).length : ℚ)) := by
            intro x hx
            obtain ⟨i, _, hsucc, hxval⟩ := mmScores_elt _ _ _ _ _ _ hx
            have hOK' := makeMove_boardOK rack i shape player
              ⟨hlen, hcl, hgr⟩ hplayer
            have hb := ih (makeMove rack i shape player).1
              (ply + 1) hOK' hrows (by omega)
            have hmono : max ((1000000000 : ℚ) / ((ply : ℚ) + 1))
                (100 * ((allQuartets shape).length : ℚ)) ≤
                max ((1000000000 : ℚ) / (ply : ℚ))
                (100 * ((allQuartets shape).length : ℚ)) :=
              max_le_max hcap1 (le_refl _)
            rw [hxval]
            push_cast at hb
            constructor
            · exact le_trans (neg_le_neg hmono) hb.1
            · exact le_trans hb.2 hmono
          have hnonnil := mmScores_ne_nil shape player
            (fun r => minimaxAux ID MAXP shape fuel r (ply + 1)) rack
            (by simpa using hfull) hrows
          obtain ⟨x0, hx0⟩ := List.exists_mem_of_ne_nil _ hnonnil
          by_cases hturn : ID ≠ player
          · rw [if_pos hturn]
            show _ ≤ (mmScores shape player
                (fun r => minimaxAux ID MAXP shape fuel r (ply + 1))
                rack (List.range shape.1)).foldl min (10000000000 : ℚ) ∧ _
            constructor
            · apply le_foldl_min
              · linarith
              · exact fun x hx => (helt x hx).1
            · exact le_trans (foldl_min_le _ _ _ hx0) (helt x0 hx0).2
          · rw [if_neg hturn]
            show _ ≤ (mmScores shape player
                (fun r => minimaxAux ID MAXP shape fuel r (ply + 1))
                rack (List.range shape.1)).foldl max (-(10000000000 : ℚ)) ∧ _
            constructor
            · exact le_trans (helt x0 hx0).1 (le_foldl_max _ _ _ hx0)
            · apply foldl_max_le
              · linarith
              · exact fun x hx => (helt x hx).2

theorem minimax_nonwin_le (ID MAXP : Nat) (shape : Nat × Nat)
    (hID : ID = 1 ∨ ID = 2) (fuel : Nat) (rack : C4Rack) (ply : Nat)
    (hOK : boardOK rack shape) (hrows : 1 ≤ shape.2) (hply : 1 ≤ ply)
    (hnw : (boardStateScore ID rack shape).2 = false) :
    minimaxAux ID MAXP shape fuel rack ply ≤
      max ((1000000000 : ℚ) / ((ply : ℚ) + 1))
        (100 * ((allQuartets shape).length : ℚ)) := by
  have hplypos : (0 : ℚ) < (ply : ℚ) := by exact_mod_cast hply
  have hcappos : (0 : ℚ) < (1000000000 : ℚ) / ((ply : ℚ) + 1) :=
    div_pos (by norm_num) (by linarith)
  have hBpos : (0:ℚ) < max ((1000000000 : ℚ) / ((ply : ℚ) + 1))
      (100 * ((allQuartets shape).length : ℚ)) :=
    lt_max_of_lt_left hcappos
  cases fuel with
  | zero => exact le_of_lt hBpos
  | succ fuel =>
    have hwin : ¬ (boardStateScore ID rack shape).2 = true := by simp [hnw]
    by_cases hfull : rackFull rack shape = true
    · rw [minimaxAux]
      simp only [hwin, hfull, if_true, Bool.false_eq_true, if_false]
      exact le_of_lt hBpos
    · by_cases hcut : ply = MAXP
      · rw [minimaxAux]
        simp only [hwin, hfull, Bool.false_eq_true, if_false]
        rw [if_pos hcut]
        have hnweq : boardStateScore ID rack shape =
            ((boardStateScore ID rack shape).1, false) := by
          rw [Prod.ext_iff]
          exact ⟨rfl, by simpa using hnw⟩
        obtain ⟨_, hhi⟩ := bss_nowin_bound ID rack shape _ hnweq
        have hhiQ : ((boardStateScore ID rack shape).1 : ℚ) ≤
            100 * ((allQuartets shape).length : ℚ) := by
          exact_mod_cast hhi
        exact le_trans hhiQ (le_max_right _ _)
      · rw [minimaxAux]
        simp only [hwin, hfull, hcut, Bool.false_eq_true, if_false]
        obtain ⟨hlen, hcl, hgr⟩ := hOK
        have hplayer := player_ne_zero ID ply hID
        set player := (if ply % 2 = 1 then (if ID = 1 then 2 else 1) else ID)
          with hpl
        have hfold := mmFold_spec shape player
          (fun r => minimaxAux ID MAXP shape fuel r (ply + 1))
          rack hplayer hcl hgr (List.range shape.1)
          (fun i hi => by rw [hlen]; exact List.mem_range.mp hi)
          (-(10000000000 : ℚ)) (10000000000 : ℚ)
        rw [hfold]
        have helt : ∀ x ∈ mmScores shape player
            (fun r => minimaxAux ID MAXP shape fuel r (ply + 1))
            rack (List.range shape.1),
            x ≤ max ((1000000000 : ℚ) / ((ply : ℚ) + 1))
              (100 * ((allQuartets shape).length : ℚ)) := by
          intro x hx
          obtain ⟨i, _, hsucc, hxval⟩ := mmScores_elt _ _ _ _ _ _ hx
          have hOK' := makeMove_boardOK rack i shape player
            ⟨hlen, hcl, hgr⟩ hplayer
          have hb := (minimax_bound ID MAXP shape hID fuel
            (makeMove rack i shape player).1 (ply + 1) hOK' hrows
            (by omega)).2
          rw [hxval]
          push_cast at hb
          exact hb
        have hnonnil := mmScores_ne_nil shape player
          (fun r => minimaxAux ID MAXP shape fuel r (ply + 1)) rack
          (by simpa using hfull) hrows
        obtain ⟨x0, hx0⟩ := List.exists_mem_of_ne_nil _ hnonnil
        by_cases hturn : ID ≠ player
        · rw [if_pos hturn]
          show (mmScores shape player
              (fun r => minimaxAux ID MAXP shape fuel r (ply + 1))
              rack (List.range shape.1)).foldl min (10000000000 : ℚ) ≤ _
          exact le_trans (foldl_min_le _ _ _ hx0) (helt x0 hx0)
        · rw [if_neg hturn]
          show (mmScores shape player
              (fun r => minimaxAux ID MAXP shape fuel r (ply + 1))
              rack (List.range shape.1)).foldl max (-(10000000000 : ℚ)) ≤ _
          apply foldl_max_le
          · linarith
          · exact helt

/-! ### Equivalence with the raw-cutoff variant (claim C8 machinery) -/

theorem foldl_mmStep_congr (shape : Nat × Nat) (player : Nat)
    (f g : C4Rack → ℚ) (h : ∀ r, f r = g r) :
    ∀ (l : List Nat) (st : C4Rack × ℚ × ℚ),
      List.foldl (mmStep shape player f) st l =
        List.foldl (mmStep shape player g) st l := by
  intro l
  induction l with
  | nil => intro st; rfl
  | cons i l' ih =>
    intro st
    rw [List.foldl_cons, List.foldl_cons]
    have hstep : mmStep shape player f st i = mmStep shape player g st i := by
      rw [mmStep, mmStep, h]
    rw [hstep]
    exact ih _

/-! ### Characterization of the root loop of `pick_move` -/

theorem pickFold_spec (ID MAXP : Nat) (shape : Nat × Nat) (fuel : Nat)
    (rack : C4Rack) (hID : ID ≠ 0)
    (hcl : ∀ c ∈ rack, c.length = shape.2)
    (hgr : ∀ c ∈ rack, gravityCol c = true)
    (hlenge : shape.1 ≤ rack.length)
    (hb : ∀ i, i < shape.1 → (makeMove rack i shape ID).2 = true →
      -(10000000000 : ℚ) <
        minimaxAux ID MAXP shape fuel (makeMove rack i shape ID).1 1) :
    ∀ k, k ≤ shape.1 →
    ∃ b h, List.foldl (pickStep ID MAXP shape fuel)
        (rack, 0, -(10000000000 : ℚ)) (List.range k) = (rack, b, h) ∧
      (∀ i, i < k → (makeMove rack i shape ID).2 = true →
        minimaxAux ID MAXP shape fuel (makeMove rack i shape ID).1 1 ≤ h) ∧
      ((∀ i, i < k → (makeMove rack i shape ID).2 = false) →
        b = 0 ∧ h = -(10000000000 : ℚ)) ∧
      ((∃ i, i < k ∧ (makeMove rack i shape ID).2 = true) →
        b < k ∧ (makeMove rack b shape ID).2 = true ∧
        minimaxAux ID MAXP shape fuel (makeMove rack b shape ID).1 1 = h ∧
        ∀ i, i < b → (makeMove rack i shape ID).2 = true →
          minimaxAux ID MAXP shape fuel (makeMove rack i shape ID).1 1 < h) := by
  intro k
  induction k with
  | zero =>
    intro _
    refine ⟨0, -(10000000000 : ℚ), by simp [List.range_zero], ?_, ?_, ?_⟩
    · intro i hi; omega
    · intro _; exact ⟨rfl, rfl⟩
    · rintro ⟨i, hi, _⟩; omega
  | succ k ih =>
    intro hk1
    obtain ⟨b, h, heq, hub, hnone, hsome⟩ := ih (by omega)
    rw [List.range_succ, List.foldl_append, heq]
    simp only [List.foldl_cons, List.foldl_nil]
    cases hs : (makeMove rack k shape ID).2 with
    | false =>
      have hstep : pickStep ID MAXP shape fuel (rack, b, h) k = (rack, b, h) := by
        simp [pickStep, hs]
      rw [hstep]
      refine ⟨b, h, rfl, ?_, ?_, ?_⟩
      · intro i hi hsucc
        rcases Nat.lt_or_ge i k with hik | hik
        · exact hub i hik hsucc
        · have : i = k := by omega
          rw [this] at hsucc
          rw [hsucc] at hs
          exact absurd hs (by simp)
      · intro hall
        exact hnone (fun i hi => hall i (by omega))
      · rintro ⟨i, hi, hsucc⟩
        have hik : i < k := by
          rcases Nat.lt_or_ge i k with hik | hik
          · exact hik
          · have : i = k := by omega
            rw [this] at hsucc
            rw [hsucc] at hs
            exact absurd hs (by simp)
        obtain ⟨h1, h2, h3, h4⟩ := hsome ⟨i, hik, hsucc⟩
        exact ⟨by omega, h2, h3, h4⟩
    | true =>
      have hmem := getD_mem rack k [] (by omega)
      have hrt := make_unmake_state rack k shape ID hID
        (hcl _ hmem) (hgr _ hmem) hs
      have hstep : pickStep ID MAXP shape fuel (rack, b, h) k =
          (rack,
            (if minimaxAux ID MAXP shape fuel
                (makeMove rack k shape ID).1 1 > h then k else b),
            (if minimaxAux ID MAXP shape fuel
                (makeMove rack k shape ID).1 1 > h then
              minimaxAux ID MAXP shape fuel (makeMove rack k shape ID).1 1
              else h)) := by
        simp only [pickStep, hs, if_true]
        rw [hrt]
      rw [hstep]
      by_cases hgt : minimaxAux ID MAXP shape fuel
          (makeMove rack k shape ID).1 1 > h
      · rw [if_pos hgt, if_pos hgt]
        refine ⟨k, _, rfl, ?_, ?_, ?_⟩
        · intro i hi hsucc
          rcases Nat.lt_or_ge i k with hik | hik
          · exact le_of_lt (lt_of_le_of_lt (hub i hik hsucc) hgt)
          · have : i = k := by omega
            rw [this]
        · intro hall
          have := hall k (by omega)
          rw [this] at hs
          exact absurd hs (by simp)
        · intro _
          refine ⟨by omega, hs, rfl, ?_⟩
          intro i hi hsucc
          exact lt_of_le_of_lt (hub i (by omega) hsucc) hgt
      · rw [if_neg hgt, if_neg hgt]
        push_neg at hgt
        refine ⟨b, h, rfl, ?_, ?_, ?_⟩
        · intro i hi hsucc
          rcases Nat.lt_or_ge i k with hik | hik
          · exact hub i hik hsucc
          · have : i = k := by omega
            rw [this]
            exact hgt
        · intro hall
          have := hall k (by omega)
          rw [this] at hs
          exact absurd hs (by simp)
        · intro _
          by_cases hex : ∃ i, i < k ∧ (makeMove rack i shape ID).2 = true
          · obtain ⟨h1, h2, h3, h4⟩ := hsome hex
            exact ⟨by omega, h2, h3, h4⟩
          · exfalso
            push_neg at hex
            have hallfail : ∀ i, i < k → (makeMove rack i shape ID).2 = false := by
              intro i hi
              cases hval : (makeMove rack i shape ID).2 with
              | false => rfl
              | true => exact absurd hval (by simp [hex i hi])
            obtain ⟨_, hh⟩ := hnone hallfail
            rw [hh] at hgt
            have := hb k (by omega) hs
            linarith

theorem pickMove_spec (ID MAXP : Nat) (rack : C4Rack)
    (hID : ID = 1 ∨ ID = 2)
    (hcl : ∀ c ∈ rack, c.length = (rack.headD []).length)
    (hgr : ∀ c ∈ rack, gravityCol c = true)
    (hrows : 1 ≤ (rack.headD []).length)
    (hQ : 100 * (allQuartets (rack.length,
      (rack.headD []).length)).length < 10000000000)
    (hnf : rackFull rack (rack.length, (rack.headD []).length) = false) :
    ∃ b, pickMove ID MAXP rack = (some b, rack) ∧
      b < rack.length ∧
      (makeMove rack b (rack.length, (rack.headD []).length) ID).2 = true ∧
      (∀ i, i < rack.length →
        (makeMove rack i (rack.length, (rack.headD []).length) ID).2 = true →
        minimaxAux ID MAXP (rack.length, (rack.headD []).length)
            (rack.length * (rack.headD []).length + 1)
            (makeMove rack i (rack.length, (rack.headD []).length) ID).1 1 ≤
          minimaxAux ID MAXP (rack.length, (rack.headD []).length)
            (rack.length * (rack.headD []).length + 1)
            (makeMove rack b (rack.length, (rack.headD []).length) ID).1 1) ∧
      (∀ i, i < b →
        (makeMove rack i (rack.length, (rack.headD []).length) ID).2 = true →
        minimaxAux ID MAXP (rack.length, (rack.headD []).length)
            (rack.length * (rack.headD []).length + 1)
            (makeMove rack i (rack.length, (rack.headD []).length) ID).1 1 <
          minimaxAux ID MAXP (rack.length, (rack.headD []).length)
            (rack.length * (rack.headD []).length + 1)
            (makeMove rack b (rack.length, (rack.headD []).length) ID).1 1) := by
  have hID0 : ID ≠ 0 := by rcases hID with rfl | rfl <;> simp
  have hOK : boardOK rack (rack.length, (rack.headD []).length) :=
    ⟨rfl, hcl, hgr⟩
  have hQQ : (100 : ℚ) * ((allQuartets (rack.length,
      (rack.headD []).length)).length : ℚ) < 10000000000 := by
    exact_mod_cast hQ
  have hb : ∀ i, i < (rack.length, (rack.headD []).length).1 →
      (makeMove rack i (rack.length, (rack.headD []).length) ID).2 = true →
      -(10000000000 : ℚ) <
        minimaxAux ID MAXP (rack.length, (rack.headD []).length)
          (rack.length * (rack.headD []).length + 1)
          (makeMove rack i (rack.length, (rack.headD []).length) ID).1 1 := by
    intro i _ _
    have hOK' := makeMove_boardOK rack i (rack.length,
      (rack.headD []).length) ID hOK hID0
    have hlow := (minimax_bound ID MAXP (rack.length, (rack.headD []).length)
      hID (rack.length * (rack.headD []).length + 1)
      (makeMove rack i (rack.length, (rack.headD []).length) ID).1 1 hOK'
      hrows (le_refl 1)).1
    have hmaxlt : max ((1000000000 : ℚ) / ((1 : Nat) : ℚ))
        (100 * ((allQuartets (rack.length,
          (rack.headD []).length)).length : ℚ)) < 10000000000 := by
      apply max_lt
      · norm_num
      · exact hQQ
    calc -(10000000000 : ℚ) < -(max ((1000000000 : ℚ) / ((1 : Nat) : ℚ))
          (100 * ((allQuartets (rack.length,
            (rack.headD []).length)).length : ℚ))) := by linarith
      _ ≤ _ := hlow
  obtain ⟨b, h, heq, hub, _, hsome⟩ := pickFold_spec ID MAXP
    (rack.length, (rack.headD []).length)
    (rack.length * (rack.headD []).length + 1) rack hID0 hcl hgr
    (le_refl rack.length) hb rack.length (le_refl rack.length)
  obtain ⟨i0, hi0, hs0⟩ := exists_legal rack
    (rack.length, (rack.headD []).length) ID hnf hrows
  obtain ⟨hblt, hbsucc, hbval, hbmax⟩ :=
    hsome ⟨i0, List.mem_range.mp hi0, hs0⟩
  refine ⟨b, ?_, hblt, hbsucc, ?_, ?_⟩
  · rw [pickMove]
    simp only [hnf, Bool.false_eq_true, if_false, heq]
  · intro i hi hsucc
    rw [hbval]
    exact hub i hi hsucc
  · intro i hi hsucc
    rw [hbval]
    exact hbmax i hi hsucc

/-! ### Claim theorems -/

/-- C1: for every column and every (gravity-consistent, well-shaped)
board whose column is not full — so that `_make_move` succeeds — placing
a disc of a (nonzero) player and immediately calling `_unmake_move` on
the same column restores the board to bit-for-bit equality with its
state before the move. -/
theorem claim_C1 (rack : C4Rack) (col : Nat) (shape : Nat × Nat)
    (player : Nat) (hplayer : player ≠ 0)
    (hclen : (rack.getD col []).length = shape.2)
    (hgrav : gravityCol (rack.getD col []) = true)
    (hsucc : (makeMove rack col shape player).2 = true) :
    unmakeMove (makeMove rack col shape player).1 col shape = (rack, true) :=
  make_unmake_state rack col shape player hplayer hclen hgrav hsucc

theorem claim_C1_witness :
    unmakeMove (makeMove [[1, 2, 0], [0, 0, 0]] 0 (2, 3) 1).1 0 (2, 3) =
      ([[1, 2, 0], [0, 0, 0]], true) :=
  claim_C1 [[1, 2, 0], [0, 0, 0]] 0 (2, 3) 1 (by decide) (by decide)
    (by decide) (by decide)

/-- C5: whenever `_board_state_score` reports a win, its score is exactly
plus or minus one billion, `_minimax` at ply `p ≥ 1` returns that score
divided by `p`, and consequently a win detected at a smaller ply is
strictly larger (for the engine) respectively strictly more negative
(for the opponent) than the same win detected at a larger ply. -/
theorem claim_C5 (ID MAXP : Nat) (shape : Nat × Nat) (fuel : Nat)
    (rack : C4Rack) (ply : Nat) (hply : 1 ≤ ply) (hfuel : 1 ≤ fuel)
    (hwin : (boardStateScore ID rack shape).2 = true) :
    ((boardStateScore ID rack shape).1 = 1000000000 ∨
      (boardStateScore ID rack shape).1 = -1000000000) ∧
    minimaxAux ID MAXP shape fuel rack ply =
      ((boardStateScore ID rack shape).1 : ℚ) / (ply : ℚ) ∧
    (∀ ply', ply < ply' →
      ((boardStateScore ID rack shape).1 = 1000000000 →
        minimaxAux ID MAXP shape fuel rack ply' <
          minimaxAux ID MAXP shape fuel rack ply) ∧
      ((boardStateScore ID rack shape).1 = -1000000000 →
        minimaxAux ID MAXP shape fuel rack ply <
          minimaxAux ID MAXP shape fuel rack ply')) := by
  obtain ⟨fuel', rfl⟩ : ∃ f, fuel = f + 1 := ⟨fuel - 1, by omega⟩
  have hval : ∀ p : Nat, minimaxAux ID MAXP shape (fuel' + 1) rack p =
      ((boardStateScore ID rack shape).1 : ℚ) / (p : ℚ) := by
    intro p
    rw [minimaxAux]
    simp only [hwin, if_true]
  refine ⟨bss_win_val ID rack shape hwin, hval ply, ?_⟩
  intro ply' hlt
  have hp : (0 : ℚ) < (ply : ℚ) := by exact_mod_cast hply
  have hpp : ((ply : ℚ)) < (ply' : ℚ) := by exact_mod_cast hlt
  constructor
  · intro hv
    rw [hval ply, hval ply', hv]
    push_cast
    exact div_lt_div_of_pos_left (by norm_num) hp hpp
  · intro hv
    rw [hval ply, hval ply', hv]
    push_cast
    rw [neg_div, neg_div]
    apply neg_lt_neg
    exact div_lt_div_of_pos_left (by norm_num) hp hpp

theorem claim_C5_witness :
    minimaxAux 1 5 (1, 4) 1 [[1, 1, 1, 1]] 1 = 1000000000 ∧
    minimaxAux 1 5 (1, 4) 1 [[1, 1, 1, 1]] 2 <
      minimaxAux 1 5 (1, 4) 1 [[1, 1, 1, 1]] 1 := by
  have hc := claim_C5 1 5 (1, 4) 1 [[1, 1, 1, 1]] 1 (by norm_num)
    (by norm_num) (by decide)
  have h1 : (boardStateScore 1 [[1, 1, 1, 1]] (1, 4)).1 = 1000000000 := by
    decide
  constructor
  · rw [hc.2.1, h1]
    norm_num
  · exact (hc.2.2 2 (by norm_num)).1 h1

/-- C8: `_minimax` is extensionally equal to a variant whose depth-cutoff
branch returns the raw aggregate score unconditionally: the win re-check
inside the cutoff branch is dead code, because the win check at the top
of the same call has already dispatched every winning board. -/
theorem claim_C8 (ID MAXP : Nat) (shape : Nat × Nat) :
    ∀ (fuel : Nat) (rack : C4Rack) (ply : Nat),
      minimaxAux ID MAXP shape fuel rack ply =
        minimaxRawCutoff ID MAXP shape fuel rack ply := by
  intro fuel
  induction fuel with
  | zero => intro rack ply; rfl
  | succ fuel ih =>
    intro rack ply
    rw [minimaxAux, minimaxRawCutoff]
    by_cases hwin : (boardStateScore ID rack shape).2 = true
    · simp only [hwin, if_true]
    · simp only [hwin, Bool.false_eq_true, if_false]
      by_cases hfull : rackFull rack shape = true
      · simp only [hfull, if_true]
      · simp only [hfull, Bool.false_eq_true, if_false]
        by_cases hcut : ply = MAXP
        · rw [if_pos hcut, if_pos hcut]
        · rw [if_neg hcut, if_neg hcut]
          have hfold := foldl_mmStep_congr shape
            (if ply % 2 = 1 then (if ID = 1 then 2 else 1) else ID)
            (fun r => minimaxAux ID MAXP shape fuel r (ply + 1))
            (fun r => minimaxRawCutoff ID MAXP shape fuel r (ply + 1))
            (fun r => ih r (ply + 1)) (List.range shape.1)
            (rack, -(10000000000 : ℚ), (10000000000 : ℚ))
          rw [hfold]

/-- C7: `_board_state_score` scans the vertical, horizontal, rising and
falling quartets in order; if no quartet wins it returns the sum of all
quartet scores with `isWin = false`, if some quartet wins it returns
exactly the first winning quartet's result; a direction whose span does
not fit on the board contributes no quartets. -/
theorem claim_C7 (ID : Nat) (rack : C4Rack) (shape : Nat × Nat) :
    ((∀ q ∈ allQuartets shape, (quartetAt ID rack q).2 = false) →
      boardStateScore ID rack shape =
        (((allQuartets shape).map (fun q => (quartetAt ID rack q).1)).sum,
          false)) ∧
    (∀ q0, (allQuartets shape).find?
        (fun q => (quartetAt ID rack q).2) = some q0 →
      boardStateScore ID rack shape = quartetAt ID rack q0 ∧
        (quartetAt ID rack q0).2 = true) ∧
    (shape.2 ≤ 3 → vQuartets shape = [] ∧ dUpQuartets shape = [] ∧
      dDownQuartets shape = []) ∧
    (shape.1 ≤ 3 → hQuartets shape = [] ∧ dUpQuartets shape = [] ∧
      dDownQuartets shape = []) := by
  refine ⟨?_, ?_, ?_, ?_⟩
  · intro hnw
    rw [boardStateScore, scanQ_nowin ID rack (allQuartets shape) 0 hnw,
      zero_add]
  · intro q0 hfind
    refine ⟨scanQ_win ID rack (allQuartets shape) 0 q0 hfind, ?_⟩
    have h := List.find?_some hfind
    simpa using h
  · intro hr
    refine ⟨?_, ?_, ?_⟩
    · rw [vQuartets, if_neg (by omega)]
    · rw [dUpQuartets, if_neg (by omega)]
    · rw [dDownQuartets, if_neg (by omega)]
  · intro hc
    refine ⟨?_, ?_, ?_⟩
    · rw [hQuartets, if_neg (by omega)]
    · rw [dUpQuartets, if_neg (by omega)]
    · rw [dDownQuartets, if_neg (by omega)]

theorem claim_C7_witness :
    boardStateScore 1 [[0, 0, 0, 0]] (1, 4) =
      (((allQuartets (1, 4)).map
        (fun q => (quartetAt 1 [[0, 0, 0, 0]] q).1)).sum, false) ∧
    boardStateScore 1 [[2, 2, 2, 2]] (1, 4) =
      quartetAt 1 [[2, 2, 2, 2]] ((0, 0), (0, 1), (0, 2), (0, 3)) :=
  ⟨(claim_C7 1 [[0, 0, 0, 0]] (1, 4)).1 (by decide),
    ((claim_C7 1 [[2, 2, 2, 2]] (1, 4)).2.1
      ((0, 0), (0, 1), (0, 2), (0, 3)) (by decide)).1⟩

/-- C6: full case analysis of `_quartet_score` on cells in {0,1,2} with
engine id in {1,2}: four identical nonzero cells give a win scored plus
(engine) or minus (opponent) one billion; four empties give (0, false);
a quartet containing discs of both players gives (0, false); a quartet
with k discs (1 ≤ k ≤ 3) of exactly one player and 4-k empties scores
ten to the power k-1, signed by whether that player is the engine. -/
theorem claim_C6 (ID a b c d : Nat) (hID : ID = 1 ∨ ID = 2) (ha : a ≤ 2)
    (hb : b ≤ 2) (hc : c ≤ 2) (hd : d ≤ 2) :
    (a = b → b = c → c = d → a ≠ 0 →
      quartetScore ID a b c d =
        ((if a = ID then 1000000000 else -1000000000 : Int), true)) ∧
    (a = 0 → b = 0 → c = 0 → d = 0 →
      quartetScore ID a b c d = (0, false)) ∧
    (1 ≤ [a, b, c, d].count 1 → 1 ≤ [a, b, c, d].count 2 →
      quartetScore ID a b c d = (0, false)) ∧
    (1 ≤ [a, b, c, d].count 1 → [a, b, c, d].count 2 = 0 →
      [a, b, c, d].count 1 ≤ 3 →
      quartetScore ID a b c d =
        ((if ID = 1 then 1 else -1) * 10 ^ ([a, b, c, d].count 1 - 1),
          false)) ∧
    (1 ≤ [a, b, c, d].count 2 → [a, b, c, d].count 1 = 0 →
      [a, b, c, d].count 2 ≤ 3 →
      quartetScore ID a b c d =
        ((if ID = 2 then 1 else -1) * 10 ^ ([a, b, c, d].count 2 - 1),
          false)) := by
  rcases hID with rfl | rfl <;>
    interval_cases a <;> interval_cases b <;> interval_cases c <;>
      interval_cases d <;>
        exact ⟨by decide, by decide, by decide, by decide, by decide⟩

theorem claim_C6_witness :
    quartetScore 1 1 1 1 1 =
      ((if 1 = 1 then 1000000000 else -1000000000 : Int), true) ∧
    quartetScore 1 0 0 0 0 = (0, false) ∧
    quartetScore 1 1 2 0 0 = (0, false) ∧
    quartetScore 1 2 2 0 0 =
      ((if (1 : Nat) = 2 then 1 else -1) *
        10 ^ ([2, 2, 0, 0].count 2 - 1), false) :=
  ⟨(claim_C6 1 1 1 1 1 (Or.inl rfl) (by decide) (by decide) (by decide)
      (by decide)).1 rfl rfl rfl (by decide),
   (claim_C6 1 0 0 0 0 (Or.inl rfl) (by decide) (by decide) (by decide)
      (by decide)).2.1 rfl rfl rfl rfl,
   (claim_C6 1 1 2 0 0 (Or.inl rfl) (by decide) (by decide) (by decide)
      (by decide)).2.2.1 (by decide) (by decide),
   (claim_C6 1 2 2 0 0 (Or.inl rfl) (by decide) (by decide) (by decide)
      (by decide)).2.2.2.2 (by decide) (by decide) (by decide)⟩

/-- C2: `pick_move` returns the "no move" sentinel `none` exactly when
the board is full; on a non-full (well-shaped, gravity-consistent,
reasonably sized) board it returns a legal 0-indexed column: an index
below the column count whose top cell is empty. -/
theorem claim_C2 (ID MAXP : Nat) (rack : C4Rack)
    (hID : ID = 1 ∨ ID = 2)
    (hcl : ∀ c ∈ rack, c.length = (rack.headD []).length)
    (hgr : ∀ c ∈ rack, gravityCol c = true)
    (hrows : 1 ≤ (rack.headD []).length)
    (hQ : 100 * (allQuartets (rack.length,
      (rack.headD []).length)).length < 10000000000) :
    ((pickMove ID MAXP rack).1 = none ↔
      rackFull rack (rack.length, (rack.headD []).length) = true) ∧
    (rackFull rack (rack.length, (rack.headD []).length) = false →
      ∃ c, (pickMove ID MAXP rack).1 = some c ∧ c < rack.length ∧
        getCell rack c ((rack.headD []).length - 1) = 0) := by
  cases hf : rackFull rack (rack.length, (rack.headD []).length) with
  | true =>
    have hpm : pickMove ID MAXP rack = (none, rack) := by
      rw [pickMove]
      simp only [hf, if_true]
    rw [hpm]
    exact ⟨⟨fun _ => rfl, fun _ => rfl⟩, fun h => by simp at h⟩
  | false =>
    obtain ⟨b, hpm, hblt, hbsucc, _, _⟩ := pickMove_spec ID MAXP rack hID
      hcl hgr hrows hQ hf
    rw [hpm]
    constructor
    · exact ⟨fun h => by simp at h, fun h => by simp at h⟩
    · intro _
      refine ⟨b, rfl, hblt, ?_⟩
      exact ((makeMove_succ_iff rack b (rack.length,
        (rack.headD []).length) ID).mp hbsucc).1

theorem claim_C2_witness :
    ((pickMove 1 1 [[0, 0, 0, 0], [0, 0, 0, 0], [0, 0, 0, 0],
        [0, 0, 0, 0]]).1 = none ↔
      rackFull [[0, 0, 0, 0], [0, 0, 0, 0], [0, 0, 0, 0], [0, 0, 0, 0]]
        (([[0, 0, 0, 0], [0, 0, 0, 0], [0, 0, 0, 0],
          [0, 0, 0, 0]] : C4Rack).length,
         (([[0, 0, 0, 0], [0, 0, 0, 0], [0, 0, 0, 0],
           [0, 0, 0, 0]] : C4Rack).headD []).length) = true) ∧
    (rackFull [[0, 0, 0, 0], [0, 0, 0, 0], [0, 0, 0, 0], [0, 0, 0, 0]]
        (([[0, 0, 0, 0], [0, 0, 0, 0], [0, 0, 0, 0],
          [0, 0, 0, 0]] : C4Rack).length,
         (([[0, 0, 0, 0], [0, 0, 0, 0], [0, 0, 0, 0],
           [0, 0, 0, 0]] : C4Rack).headD []).length) = false →
      ∃ c, (pickMove 1 1 [[0, 0, 0, 0], [0, 0, 0, 0], [0, 0, 0, 0],
          [0, 0, 0, 0]]).1 = some c ∧
        c < ([[0, 0, 0, 0], [0, 0, 0, 0], [0, 0, 0, 0],
          [0, 0, 0, 0]] : C4Rack).length ∧
        getCell [[0, 0, 0, 0], [0, 0, 0, 0], [0, 0, 0, 0], [0, 0, 0, 0]] c
          ((([[0, 0, 0, 0], [0, 0, 0, 0], [0, 0, 0, 0],
            [0, 0, 0, 0]] : C4Rack).headD []).length - 1) = 0) :=
  claim_C2 1 1 [[0, 0, 0, 0], [0, 0, 0, 0], [0, 0, 0, 0], [0, 0, 0, 0]]
    (Or.inl rfl) (by decide) (by decide) (by decide) (by decide)

/-- C3: on a non-full board, `pick_move` evaluates candidate columns left
to right and replaces the incumbent only on a strictly greater minimax
score, so it returns a legal column whose score is maximal and, among
columns attaining that maximum, the leftmost one: every legal column
strictly to its left scores strictly less. -/
theorem claim_C3 (ID MAXP : Nat) (rack : C4Rack)
    (hID : ID = 1 ∨ ID = 2)
    (hcl : ∀ c ∈ rack, c.length = (rack.headD []).length)
    (hgr : ∀ c ∈ rack, gravityCol c = true)
    (hrows : 1 ≤ (rack.headD []).length)
    (hQ : 100 * (allQuartets (rack.length,
      (rack.headD []).length)).length < 10000000000)
    (hnf : rackFull rack (rack.length, (rack.headD []).length) = false) :
    ∃ b, (pickMove ID MAXP rack).1 = some b ∧ b < rack.length ∧
      (makeMove rack b (rack.length, (rack.headD []).length) ID).2 = true ∧
      (∀ i, i < rack.length →
        (makeMove rack i (rack.length, (rack.headD []).length) ID).2 = true →
        minimaxAux ID MAXP (rack.length, (rack.headD []).length)
            (rack.length * (rack.headD []).length + 1)
            (makeMove rack i (rack.length, (rack.headD []).length) ID).1 1 ≤
          minimaxAux ID MAXP (rack.length, (rack.headD []).length)
            (rack.length * (rack.headD []).length + 1)
            (makeMove rack b (rack.length, (rack.headD []).length) ID).1 1) ∧
      (∀ i, i < b →
        (makeMove rack i (rack.length, (rack.headD []).length) ID).2 = true →
        minimaxAux ID MAXP (rack.length, (rack.headD []).length)
            (rack.length * (rack.headD []).length + 1)
            (makeMove rack i (rack.length, (rack.headD []).length) ID).1 1 <
          minimaxAux ID MAXP (rack.length, (rack.headD []).length)
            (rack.length * (rack.headD []).length + 1)
            (makeMove rack b (rack.length, (rack.headD []).length) ID).1
            1) := by
  obtain ⟨b, hpm, hblt, hbsucc, hub, hmax⟩ := pickMove_spec ID MAXP rack hID
    hcl hgr hrows hQ hnf
  exact ⟨b, by rw [hpm], hblt, hbsucc, hub, hmax⟩

theorem claim_C3_witness :
    ∃ b, (pickMove 1 1 [[0, 0, 0, 0], [0, 0, 0, 0], [0, 0, 0, 0],
        [0, 0, 0, 0]]).1 = some b ∧
      b < ([[0, 0, 0, 0], [0, 0, 0, 0], [0, 0, 0, 0],
        [0, 0, 0, 0]] : C4Rack).length ∧
      (makeMove [[0, 0, 0, 0], [0, 0, 0, 0], [0, 0, 0, 0], [0, 0, 0, 0]] b
        (([[0, 0, 0, 0], [0, 0, 0, 0], [0, 0, 0, 0],
          [0, 0, 0, 0]] : C4Rack).length,
         (([[0, 0, 0, 0], [0, 0, 0, 0], [0, 0, 0, 0],
           [0, 0, 0, 0]] : C4Rack).headD []).length) 1).2 = true ∧
      (∀ i, i < ([[0, 0, 0, 0], [0, 0, 0, 0], [0, 0, 0, 0],
          [0, 0, 0, 0]] : C4Rack).length →
        (makeMove [[0, 0, 0, 0], [0, 0, 0, 0], [0, 0, 0, 0], [0, 0, 0, 0]] i
          (([[0, 0, 0, 0], [0, 0, 0, 0], [0, 0, 0, 0],
            [0, 0, 0, 0]] : C4Rack).length,
           (([[0, 0, 0, 0], [0, 0, 0, 0], [0, 0, 0, 0],
             [0, 0, 0, 0]] : C4Rack).headD []).length) 1).2 = true →
        minimaxAux 1 1 (([[0, 0, 0, 0], [0, 0, 0, 0], [0, 0, 0, 0],
            [0, 0, 0, 0]] : C4Rack).length,
           (([[0, 0, 0, 0], [0, 0, 0, 0], [0, 0, 0, 0],
             [0, 0, 0, 0]] : C4Rack).headD []).length)
            (([[0, 0, 0, 0], [0, 0, 0, 0], [0, 0, 0, 0],
              [0, 0, 0, 0]] : C4Rack).length *
              (([[0, 0, 0, 0], [0, 0, 0, 0], [0, 0, 0, 0],
                [0, 0, 0, 0]] : C4Rack).headD []).length + 1)
            (makeMove [[0, 0, 0, 0], [0, 0, 0, 0], [0, 0, 0, 0],
              [0, 0, 0, 0]] i
              (([[0, 0, 0, 0], [0, 0, 0, 0], [0, 0, 0, 0],
                [0, 0, 0, 0]] : C4Rack).length,
               (([[0, 0, 0, 0], [0, 0, 0, 0], [0, 0, 0, 0],
                 [0, 0, 0, 0]] : C4Rack).headD []).length) 1).1 1 ≤
          minimaxAux 1 1 (([[0, 0, 0, 0], [0, 0, 0, 0], [0, 0, 0, 0],
            [0, 0, 0, 0]] : C4Rack).length,
           (([[0, 0, 0, 0], [0, 0, 0, 0], [0, 0, 0, 0],
             [0, 0, 0, 0]] : C4Rack).headD []).length)
            (([[0, 0, 0, 0], [0, 0, 0, 0], [0, 0, 0, 0],
              [0, 0, 0, 0]] : C4Rack).length *
              (([[0, 0, 0, 0], [0, 0, 0, 0], [0, 0, 0, 0],
                [0, 0, 0, 0]] : C4Rack).headD []).length + 1)
            (makeMove [[0, 0, 0, 0], [0, 0, 0, 0], [0, 0, 0, 0],
              [0, 0, 0, 0]] b
              (([[0, 0, 0, 0], [0, 0, 0, 0], [0, 0, 0, 0],
                [0, 0, 0, 0]] : C4Rack).length,
               (([[0, 0, 0, 0], [0, 0, 0, 0], [0, 0, 0, 0],
                 [0, 0, 0, 0]] : C4Rack).headD []).length) 1).1 1) ∧
      (∀ i, i < b →
        (makeMove [[0, 0, 0, 0], [0, 0, 0, 0], [0, 0, 0, 0], [0, 0, 0, 0]] i
          (([[0, 0, 0, 0], [0, 0, 0, 0], [0, 0, 0, 0],
            [0, 0, 0, 0]] : C4Rack).length,
           (([[0, 0, 0, 0], [0, 0, 0, 0], [0, 0, 0, 0],
             [0, 0, 0, 0]] : C4Rack).headD []).length) 1).2 = true →
        minimaxAux 1 1 (([[0, 0, 0, 0], [0, 0, 0, 0], [0, 0, 0, 0],
            [0, 0, 0, 0]] : C4Rack).length,
           (([[0, 0, 0, 0], [0, 0, 0, 0], [0, 0, 0, 0],
             [0, 0, 0, 0]] : C4Rack).headD []).length)
            (([[0, 0, 0, 0], [0, 0, 0, 0], [0, 0, 0, 0],
              [0, 0, 0, 0]] : C4Rack).length *
              (([[0, 0, 0, 0], [0, 0, 0, 0], [0, 0, 0, 0],
                [0, 0, 0, 0]] : C4Rack).headD []).length + 1)
            (makeMove [[0, 0, 0, 0], [0, 0, 0, 0], [0, 0, 0, 0],
              [0, 0, 0, 0]] i
              (([[0, 0, 0, 0], [0, 0, 0, 0], [0, 0, 0, 0],
                [0, 0, 0, 0]] : C4Rack).length,
               (([[0, 0, 0, 0], [0, 0, 0, 0], [0, 0, 0, 0],
                 [0, 0, 0, 0]] : C4Rack).headD []).length) 1).1 1 <
          minimaxAux 1 1 (([[0, 0, 0, 0], [0, 0, 0, 0], [0, 0, 0, 0],
            [0, 0, 0, 0]] : C4Rack).length,
           (([[0, 0, 0, 0], [0, 0, 0, 0], [0, 0, 0, 0],
             [0, 0, 0, 0]] : C4Rack).headD []).length)
            (([[0, 0, 0, 0], [0, 0, 0, 0], [0, 0, 0, 0],
              [0, 0, 0, 0]] : C4Rack).length *
              (([[0, 0, 0, 0], [0, 0, 0, 0], [0, 0, 0, 0],
                [0, 0, 0, 0]] : C4Rack).headD []).length + 1)
            (makeMove [[0, 0, 0, 0], [0, 0, 0, 0], [0, 0, 0, 0],
              [0, 0, 0, 0]] b
              (([[0, 0, 0, 0], [0, 0, 0, 0], [0, 0, 0, 0],
                [0, 0, 0, 0]] : C4Rack).length,
               (([[0, 0, 0, 0], [0, 0, 0, 0], [0, 0, 0, 0],
                 [0, 0, 0, 0]] : C4Rack).headD []).length) 1).1 1) :=
  claim_C3 1 1 [[0, 0, 0, 0], [0, 0, 0, 0], [0, 0, 0, 0], [0, 0, 0, 0]]
    (Or.inl rfl) (by decide) (by decide) (by decide) (by decide) (by decide)

theorem pickFold_rack (ID MAXP : Nat) (shape : Nat × Nat) (fuel : Nat)
    (rack : C4Rack) (hID : ID ≠ 0)
    (hcl : ∀ c ∈ rack, c.length = shape.2)
    (hgr : ∀ c ∈ rack, gravityCol c = true) :
    ∀ l : List Nat, (∀ i ∈ l, i < rack.length) → ∀ (bb : Nat) (hh : ℚ),
      (List.foldl (pickStep ID MAXP shape fuel) (rack, bb, hh) l).1 =
        rack := by
  intro l
  induction l with
  | nil => intro _ bb hh; rfl
  | cons i l' ih =>
    intro hl bb hh
    rw [List.foldl_cons]
    cases hs : (makeMove rack i shape ID).2 with
    | false =>
      have hstep : pickStep ID MAXP shape fuel (rack, bb, hh) i =
          (rack, bb, hh) := by
        simp [pickStep, hs]
      rw [hstep]
      exact ih (fun x hx => hl x (List.mem_cons_of_mem i hx)) bb hh
    | true =>
      have hmem := getD_mem rack i [] (hl i (List.mem_cons_self i l'))
      have hrt := make_unmake_state rack i shape ID hID
        (hcl _ hmem) (hgr _ hmem) hs
      have hstep : pickStep ID MAXP shape fuel (rack, bb, hh) i =
          (rack,
            (if minimaxAux ID MAXP shape fuel
                (makeMove rack i shape ID).1 1 > hh then i else bb),
            (if minimaxAux ID MAXP shape fuel
                (makeMove rack i shape ID).1 1 > hh then
              minimaxAux ID MAXP shape fuel (makeMove rack i shape ID).1 1
              else hh)) := by
        simp only [pickStep, hs, if_true]
        rw [hrt]
      rw [hstep]
      exact ih (fun x hx => hl x (List.mem_cons_of_mem i hx)) _ _

/-- C9: `pick_move` leaves the engine's working board in its original
state: every simulated move made during the root loop is reverted, so
the board after the call compares equal cell-for-cell with the board
before it (hence the caller-supplied rack, of which the working board is
a copy, is unchanged). -/
theorem claim_C9 (ID MAXP : Nat) (rack : C4Rack) (hID : ID ≠ 0)
    (hcl : ∀ c ∈ rack, c.length = (rack.headD []).length)
    (hgr : ∀ c ∈ rack, gravityCol c = true) :
    (pickMove ID MAXP rack).2 = rack := by
  rw [pickMove]
  cases hf : rackFull rack (rack.length, (rack.headD []).length) with
  | true => simp only [hf, if_true]
  | false =>
    simp only [hf, Bool.false_eq_true, if_false]
    exact pickFold_rack ID MAXP (rack.length, (rack.headD []).length)
      (rack.length * (rack.headD []).length + 1) rack hID hcl hgr
      (List.range rack.length) (fun i hi => List.mem_range.mp hi) 0
      (-(10000000000 : ℚ))

theorem claim_C9_witness :
    (pickMove 1 1 [[1, 0, 0], [2, 0, 0]]).2 = [[1, 0, 0], [2, 0, 0]] :=
  claim_C9 1 1 [[1, 0, 0], [2, 0, 0]] (by decide) (by decide) (by decide)

/-- C4: at a non-terminal, non-cutoff node of `_minimax`, the children
are generated by attempting each column left-to-right and skipping full
columns, the disc placed belongs to the opponent when the ply is odd and
to the engine when it is even, and the value returned is the minimum of
the children's scores at odd ply and their maximum at even ply. -/
theorem claim_C4 (ID MAXP cols rows fuel ply : Nat) (rack : C4Rack)
    (hID : ID = 1 ∨ ID = 2)
    (hlen : rack.length = cols)
    (hcl : ∀ c ∈ rack, c.length = rows)
    (hgr : ∀ c ∈ rack, gravityCol c = true)
    (hrows : 1 ≤ rows)
    (hply : 1 ≤ ply)
    (hQ : 100 * (allQuartets (cols, rows)).length < 10000000000)
    (hnw : (boardStateScore ID rack (cols, rows)).2 = false)
    (hnf : rackFull rack (cols, rows) = false)
    (hnc : ply ≠ MAXP) :
    mmScores (cols, rows)
        (if ply % 2 = 1 then (if ID = 1 then 2 else 1) else ID)
        (fun r => minimaxAux ID MAXP (cols, rows) fuel r (ply + 1)) rack
        (List.range cols) ≠ [] ∧
    minimaxAux ID MAXP (cols, rows) (fuel + 1) rack ply ∈
      mmScores (cols, rows)
        (if ply % 2 = 1 then (if ID = 1 then 2 else 1) else ID)
        (fun r => minimaxAux ID MAXP (cols, rows) fuel r (ply + 1)) rack
        (List.range cols) ∧
    (ply % 2 = 1 →
      (if ply % 2 = 1 then (if ID = 1 then 2 else 1) else ID) ≠ ID ∧
      ∀ x ∈ mmScores (cols, rows)
          (if ply % 2 = 1 then (if ID = 1 then 2 else 1) else ID)
          (fun r => minimaxAux ID MAXP (cols, rows) fuel r (ply + 1)) rack
          (List.range cols),
        minimaxAux ID MAXP (cols, rows) (fuel + 1) rack ply ≤ x) ∧
    (ply % 2 = 0 →
      (if ply % 2 = 1 then (if ID = 1 then 2 else 1) else ID) = ID ∧
      ∀ x ∈ mmScores (cols, rows)
          (if ply % 2 = 1 then (if ID = 1 then 2 else 1) else ID)
          (fun r => minimaxAux ID MAXP (cols, rows) fuel r (ply + 1)) rack
          (List.range cols),
        x ≤ minimaxAux ID MAXP (cols, rows) (fuel + 1) rack ply) := by
  have hplayer := player_ne_zero ID ply hID
  have hwin : ¬ (boardStateScore ID rack (cols, rows)).2 = true := by
    simp [hnw]
  set p := (if ply % 2 = 1 then (if ID = 1 then 2 else 1) else ID) with hp
  have hvaleq : minimaxAux ID MAXP (cols, rows) (fuel + 1) rack ply =
      (if ID ≠ p then
        (mmScores (cols, rows) p
          (fun r => minimaxAux ID MAXP (cols, rows) fuel r (ply + 1)) rack
          (List.range cols)).foldl min (10000000000 : ℚ)
      else
        (mmScores (cols, rows) p
          (fun r => minimaxAux ID MAXP (cols, rows) fuel r (ply + 1)) rack
          (List.range cols)).foldl max (-(10000000000 : ℚ))) := by
    rw [minimaxAux]
    simp only [hwin, hnf, hnc, Bool.false_eq_true, if_false]
    rw [← hp]
    rw [mmFold_spec (cols, rows) p
      (fun r => minimaxAux ID MAXP (cols, rows) fuel r (ply + 1)) rack
      hplayer hcl hgr (List.range cols)
      (fun i hi => by rw [hlen]; exact List.mem_range.mp hi)
      (-(10000000000 : ℚ)) (10000000000 : ℚ)]
  have hQQ : (100 : ℚ) * ((allQuartets (cols, rows)).length : ℚ) <
      10000000000 := by exact_mod_cast hQ
  have helt : ∀ x ∈ mmScores (cols, rows) p
      (fun r => minimaxAux ID MAXP (cols, rows) fuel r (ply + 1)) rack
      (List.range cols),
      -(10000000000 : ℚ) < x ∧ x < (10000000000 : ℚ) := by
    intro x hx
    obtain ⟨i, _, hsucc, hxval⟩ := mmScores_elt _ _ _ _ _ _ hx
    have hOK' := makeMove_boardOK rack i (cols, rows) p
      ⟨hlen, hcl, hgr⟩ hplayer
    have hb := minimax_bound ID MAXP (cols, rows) hID fuel
      (makeMove rack i (cols, rows) p).1 (ply + 1) hOK' hrows (by omega)
    have hplypos : (0 : ℚ) < ((ply : ℚ) + 1) := by positivity
    have hcaple : (1000000000 : ℚ) / (((ply + 1 : Nat)) : ℚ) ≤
        1000000000 := by
      apply div_le_self (by norm_num)
      push_cast
      linarith
    have hmaxlt : max ((1000000000 : ℚ) / (((ply + 1 : Nat)) : ℚ))
        (100 * ((allQuartets (cols, rows)).length : ℚ)) <
        10000000000 := by
      apply max_lt
      · linarith
      · exact hQQ
    rw [hxval]
    constructor
    · calc -(10000000000 : ℚ) < -(max ((1000000000 : ℚ) /
            (((ply + 1 : Nat)) : ℚ))
            (100 * ((allQuartets (cols, rows)).length : ℚ))) := by linarith
        _ ≤ _ := hb.1
    · exact lt_of_le_of_lt hb.2 hmaxlt
  have hnonnil := mmScores_ne_nil (cols, rows) p
    (fun r => minimaxAux ID MAXP (cols, rows) fuel r (ply + 1)) rack hnf
    hrows
  obtain ⟨x0, hx0⟩ := List.exists_mem_of_ne_nil _ hnonnil
  by_cases hpar : ply % 2 = 1
  · have hpne : ID ≠ p := by
      rw [hp, if_pos hpar]
      rcases hID with rfl | rfl <;> simp
    have hval : minimaxAux ID MAXP (cols, rows) (fuel + 1) rack ply =
        (mmScores (cols, rows) p
          (fun r => minimaxAux ID MAXP (cols, rows) fuel r (ply + 1)) rack
          (List.range cols)).foldl min (10000000000 : ℚ) := by
      rw [hvaleq, if_pos hpne]
    refine ⟨hnonnil, ?_, ?_, ?_⟩
    · rw [hval]
      rcases foldl_min_mem (mmScores (cols, rows) p
          (fun r => minimaxAux ID MAXP (cols, rows) fuel r (ply + 1)) rack
          (List.range cols)) (10000000000 : ℚ) with h | h
      · exfalso
        have h1 := foldl_min_le _ (10000000000 : ℚ) x0 hx0
        rw [h] at h1
        have h2 := (helt x0 hx0).2
        linarith
      · exact h
    · intro _
      refine ⟨fun h => hpne h.symm, ?_⟩
      intro x hx
      rw [hval]
      exact foldl_min_le _ _ x hx
    · intro h
      omega
  · have hpeq : p = ID := by
      rw [hp, if_neg hpar]
    have hpne : ¬ ID ≠ p := by rw [hpeq]; simp
    have hval : minimaxAux ID MAXP (cols, rows) (fuel + 1) rack ply =
        (mmScores (cols, rows) p
          (fun r => minimaxAux ID MAXP (cols, rows) fuel r (ply + 1)) rack
          (List.range cols)).foldl max (-(10000000000 : ℚ)) := by
      rw [hvaleq, if_neg hpne]
    refine ⟨hnonnil, ?_, ?_, ?_⟩
    · rw [hval]
      rcases foldl_max_mem (mmScores (cols, rows) p
          (fun r => minimaxAux ID MAXP (cols, rows) fuel r (ply + 1)) rack
          (List.range cols)) (-(10000000000 : ℚ)) with h | h
      · exfalso
        have h1 := le_foldl_max _ (-(10000000000 : ℚ)) x0 hx0
        rw [h] at h1
        have h2 := (helt x0 hx0).1
        linarith
      · exact h
    · intro h
      omega
    · intro _
      refine ⟨hpeq, ?_⟩
      intro x hx
      rw [hval]
      exact le_foldl_max _ _ x hx

theorem claim_C4_witness :
    mmScores (4, 4)
        (if 1 % 2 = 1 then (if 1 = 1 then 2 else 1) else 1)
        (fun r => minimaxAux 1 2 (4, 4) 2 r (1 + 1))
        [[0, 0, 0, 0], [0, 0, 0, 0], [0, 0, 0, 0], [0, 0, 0, 0]]
        (List.range 4) ≠ [] ∧
    minimaxAux 1 2 (4, 4) (2 + 1)
        [[0, 0, 0, 0], [0, 0, 0, 0], [0, 0, 0, 0], [0, 0, 0, 0]] 1 ∈
      mmScores (4, 4)
        (if 1 % 2 = 1 then (if 1 = 1 then 2 else 1) else 1)
        (fun r => minimaxAux 1 2 (4, 4) 2 r (1 + 1))
        [[0, 0, 0, 0], [0, 0, 0, 0], [0, 0, 0, 0], [0, 0, 0, 0]]
        (List.range 4) ∧
    (1 % 2 = 1 →
      (if 1 % 2 = 1 then (if 1 = 1 then 2 else 1) else 1) ≠ 1 ∧
      ∀ x ∈ mmScores (4, 4)
          (if 1 % 2 = 1 then (if 1 = 1 then 2 else 1) else 1)
          (fun r => minimaxAux 1 2 (4, 4) 2 r (1 + 1))
          [[0, 0, 0, 0], [0, 0, 0, 0], [0, 0, 0, 0], [0, 0, 0, 0]]
          (List.range 4),
        minimaxAux 1 2 (4, 4) (2 + 1)
          [[0, 0, 0, 0], [0, 0, 0, 0], [0, 0, 0, 0], [0, 0, 0, 0]] 1 ≤ x) ∧
    (1 % 2 = 0 →
      (if 1 % 2 = 1 then (if 1 = 1 then 2 else 1) else 1) = 1 ∧
      ∀ x ∈ mmScores (4, 4)
          (if 1 % 2 = 1 then (if 1 = 1 then 2 else 1) else 1)
          (fun r => minimaxAux 1 2 (4, 4) 2 r (1 + 1))
          [[0, 0, 0, 0], [0, 0, 0, 0], [0, 0, 0, 0], [0, 0, 0, 0]]
          (List.range 4),
        x ≤ minimaxAux 1 2 (4, 4) (2 + 1)
          [[0, 0, 0, 0], [0, 0, 0, 0], [0, 0, 0, 0], [0, 0, 0, 0]] 1) :=
  claim_C4 1 2 4 4 2 1
    [[0, 0, 0, 0], [0, 0, 0, 0], [0, 0, 0, 0], [0, 0, 0, 0]]
    (Or.inl rfl) rfl (by decide) (by decide) (by decide) (by decide)
    (by decide) (by decide) (by decide) (by decide)

theorem minimax_win_eq (ID MAXP : Nat) (shape : Nat × Nat) (fuel : Nat)
    (rack : C4Rack) (ply : Nat)
    (hw : (boardStateScore ID rack shape).2 = true) :
    minimaxAux ID MAXP shape (fuel + 1) rack ply =
      ((boardStateScore ID rack shape).1 : ℚ) / (ply : ℚ) := by
  rw [minimaxAux]
  simp only [hw, if_true]

theorem minimax_child_lt_billion (ID MAXP : Nat) (shape : Nat × Nat)
    (hID : ID = 1 ∨ ID = 2) (fuel : Nat) (r : C4Rack)
    (hOK : boardOK r shape) (hrows : 1 ≤ shape.2)
    (hnw : (boardStateScore ID r shape).2 = false)
    (hQ : 100 * (allQuartets shape).length ≤ 500000000) :
    minimaxAux ID MAXP shape fuel r 1 < 1000000000 := by
  have h := minimax_nonwin_le ID MAXP shape hID fuel r 1 hOK hrows
    (le_refl 1) hnw
  have hQQ : (100 : ℚ) * ((allQuartets shape).length : ℚ) ≤ 500000000 := by
    exact_mod_cast hQ
  have hcap : (1000000000 : ℚ) / (((1 : Nat) : ℚ) + 1) = 500000000 := by
    norm_num
  have hmax : max ((1000000000 : ℚ) / (((1 : Nat) : ℚ) + 1))
      (100 * ((allQuartets shape).length : ℚ)) ≤ 500000000 := by
    apply max_le
    · rw [hcap]
    · exact hQQ
  calc minimaxAux ID MAXP shape fuel r 1 ≤ _ := h
    _ ≤ (500000000 : ℚ) := hmax
    _ < 1000000000 := by norm_num

theorem pickMove_unique_best (ID MAXP : Nat) (rack : C4Rack) (w : Nat)
    (hID : ID = 1 ∨ ID = 2)
    (hcl : ∀ c ∈ rack, c.length = (rack.headD []).length)
    (hgr : ∀ c ∈ rack, gravityCol c = true)
    (hrows : 1 ≤ (rack.headD []).length)
    (hQ : 100 * (allQuartets (rack.length,
      (rack.headD []).length)).length < 10000000000)
    (hnf : rackFull rack (rack.length, (rack.headD []).length) = false)
    (hwlt : w < rack.length)
    (hwsucc : (makeMove rack w (rack.length,
      (rack.headD []).length) ID).2 = true)
    (hwval : minimaxAux ID MAXP (rack.length, (rack.headD []).length)
      (rack.length * (rack.headD []).length + 1)
      (makeMove rack w (rack.length, (rack.headD []).length) ID).1 1 =
        1000000000)
    (hleft : ∀ i, i < w →
      (makeMove rack i (rack.length, (rack.headD []).length) ID).2 = true →
      minimaxAux ID MAXP (rack.length, (rack.headD []).length)
        (rack.length * (rack.headD []).length + 1)
        (makeMove rack i (rack.length, (rack.headD []).length) ID).1 1 <
          1000000000)
    (hall : ∀ i, i < rack.length →
      (makeMove rack i (rack.length, (rack.headD []).length) ID).2 = true →
      minimaxAux ID MAXP (rack.length, (rack.headD []).length)
        (rack.length * (rack.headD []).length + 1)
        (makeMove rack i (rack.length, (rack.headD []).length) ID).1 1 ≤
          1000000000) :
    (pickMove ID MAXP rack).1 = some w := by
  obtain ⟨b, hpm, hblt, hbsucc, hub, hbmax⟩ := pickMove_spec ID MAXP rack
    hID hcl hgr hrows hQ hnf
  have h1 : (1000000000 : ℚ) ≤ minimaxAux ID MAXP
      (rack.length, (rack.headD []).length)
      (rack.length * (rack.headD []).length + 1)
      (makeMove rack b (rack.length, (rack.headD []).length) ID).1 1 := by
    rw [← hwval]
    exact hub w hwlt hwsucc
  have h2 := hall b hblt hbsucc
  have hbw : b = w := by
    rcases Nat.lt_trichotomy b w with h | h | h
    · have := hleft b h hbsucc
      linarith
    · exact h
    · have := hbmax w h hwsucc
      rw [hwval] at this
      linarith
  rw [hpm, hbw]

/-- C10 counterexample: `c10CexBoard` is a 7-column, 6-row board in which
the engine (id 1) has three discs in a row horizontally at row 0 in
columns 0, 1, 2 and column 3's row-0 cell is empty, yet with ply budget
1 `pick_move` returns column 0 (a tying immediate vertical win found
further left), not column 3. -/
theorem claim_C10_counterexample :
    getCell c10CexBoard 0 0 = 1 ∧ getCell c10CexBoard 1 0 = 1 ∧
    getCell c10CexBoard 2 0 = 1 ∧ getCell c10CexBoard 3 0 = 0 ∧
    c10CexBoard.length = 7 ∧ (∀ c ∈ c10CexBoard, c.length = 6) ∧
    (1 : Nat) ≤ 1 ∧
    (pickMove 1 1 c10CexBoard).1 = some 0 ∧
    (pickMove 1 1 c10CexBoard).1 ≠ some 3 := by
  have hwin0 : minimaxAux 1 1 (c10CexBoard.length,
      (c10CexBoard.headD []).length)
      (c10CexBoard.length * (c10CexBoard.headD []).length + 1)
      (makeMove c10CexBoard 0 (c10CexBoard.length,
        (c10CexBoard.headD []).length) 1).1 1 = 1000000000 := by
    show minimaxAux 1 1 (c10CexBoard.length,
      (c10CexBoard.headD []).length) (42 + 1)
      (makeMove c10CexBoard 0 (c10CexBoard.length,
        (c10CexBoard.headD []).length) 1).1 1 = 1000000000
    rw [minimaxAux]
    have hw : (boardStateScore 1 (makeMove c10CexBoard 0 (c10CexBoard.length,
        (c10CexBoard.headD []).length) 1).1 (c10CexBoard.length,
        (c10CexBoard.headD []).length)).2 = true := by decide
    have hv : (boardStateScore 1 (makeMove c10CexBoard 0 (c10CexBoard.length,
        (c10CexBoard.headD []).length) 1).1 (c10CexBoard.length,
        (c10CexBoard.headD []).length)).1 = 1000000000 := by decide
    simp only [hw, if_true, hv]
    norm_num
  have hwin3 : minimaxAux 1 1 (c10CexBoard.length,
      (c10CexBoard.headD []).length)
      (c10CexBoard.length * (c10CexBoard.headD []).length + 1)
      (makeMove c10CexBoard 3 (c10CexBoard.length,
        (c10CexBoard.headD []).length) 1).1 1 = 1000000000 := by
    show minimaxAux 1 1 (c10CexBoard.length,
      (c10CexBoard.headD []).length) (42 + 1)
      (makeMove c10CexBoard 3 (c10CexBoard.length,
        (c10CexBoard.headD []).length) 1).1 1 = 1000000000
    rw [minimaxAux]
    have hw : (boardStateScore 1 (makeMove c10CexBoard 3 (c10CexBoard.length,
        (c10CexBoard.headD []).length) 1).1 (c10CexBoard.length,
        (c10CexBoard.headD []).length)).2 = true := by decide
    have hv : (boardStateScore 1 (makeMove c10CexBoard 3 (c10CexBoard.length,
        (c10CexBoard.headD []).length) 1).1 (c10CexBoard.length,
        (c10CexBoard.headD []).length)).1 = 1000000000 := by decide
    simp only [hw, if_true, hv]
    norm_num
  have hother : ∀ i, i < c10CexBoard.length → i ≠ 0 → i ≠ 3 →
      minimaxAux 1 1 (c10CexBoard.length, (c10CexBoard.headD []).length)
        (c10CexBoard.length * (c10CexBoard.headD []).length + 1)
        (makeMove c10CexBoard i (c10CexBoard.length,
          (c10CexBoard.headD []).length) 1).1 1 < 1000000000 := by
    intro i hi h0 h3
    have hi7 : i < 7 := hi
    apply minimax_child_lt_billion 1 1 (c10CexBoard.length,
      (c10CexBoard.headD []).length) (Or.inl rfl)
    · interval_cases i
      · exact absurd rfl h0
      · decide
      · decide
      · exact absurd rfl h3
      · decide
      · decide
      · decide
    · decide
    · interval_cases i
      · exact absurd rfl h0
      · decide
      · decide
      · exact absurd rfl h3
      · decide
      · decide
      · decide
    · decide
  have hpick : (pickMove 1 1 c10CexBoard).1 = some 0 := by
    apply pickMove_unique_best 1 1 c10CexBoard 0 (Or.inl rfl) (by decide)
      (by decide) (by decide) (by decide) (by decide) (by decide)
      (by decide) hwin0
    · intro i hi _
      omega
    · intro i hi hsucc
      by_cases h0 : i = 0
      · rw [h0, hwin0]
      · by_cases h3 : i = 3
        · rw [h3, hwin3]
        · exact le_of_lt (hother i hi h0 h3)
  refine ⟨by decide, by decide, by decide, by decide, by decide, by decide,
    by decide, hpick, ?_⟩
  rw [hpick]
  simp

/-- C10 amended: for the specific 7-column, 6-row board whose only discs
are the engine's (id 1) at row 0 of columns 0, 1 and 2 — column 3 open —
and for every ply budget ≥ 1, `pick_move` returns column 3, the
immediate winning move, because its win score of magnitude one billion
strictly dominates every other column's value. -/
theorem claim_C10_amended (MAXP : Nat) (_hM : 1 ≤ MAXP) :
    (pickMove 1 MAXP c10Board).1 = some 3 := by
  have hw : (boardStateScore 1 (makeMove c10Board 3 (c10Board.length,
      (c10Board.headD []).length) 1).1 (c10Board.length,
      (c10Board.headD []).length)).2 = true := by decide
  have hv : (boardStateScore 1 (makeMove c10Board 3 (c10Board.length,
      (c10Board.headD []).length) 1).1 (c10Board.length,
      (c10Board.headD []).length)).1 = 1000000000 := by decide
  have hwin3 : minimaxAux 1 MAXP (c10Board.length,
      (c10Board.headD []).length)
      (c10Board.length * (c10Board.headD []).length + 1)
      (makeMove c10Board 3 (c10Board.length,
        (c10Board.headD []).length) 1).1 1 = 1000000000 := by
    have heq := minimax_win_eq 1 MAXP (c10Board.length,
      (c10Board.headD []).length) 42
      (makeMove c10Board 3 (c10Board.length,
        (c10Board.headD []).length) 1).1 1 hw
    calc minimaxAux 1 MAXP (c10Board.length, (c10Board.headD []).length)
          (c10Board.length * (c10Board.headD []).length + 1)
          (makeMove c10Board 3 (c10Board.length,
            (c10Board.headD []).length) 1).1 1
        = ((boardStateScore 1 (makeMove c10Board 3 (c10Board.length,
            (c10Board.headD []).length) 1).1 (c10Board.length,
            (c10Board.headD []).length)).1 : ℚ) / ((1 : Nat) : ℚ) := heq
      _ = 1000000000 := by rw [hv]; norm_num
  have hother : ∀ i, i < c10Board.length → i ≠ 3 →
      minimaxAux 1 MAXP (c10Board.length, (c10Board.headD []).length)
        (c10Board.length * (c10Board.headD []).length + 1)
        (makeMove c10Board i (c10Board.length,
          (c10Board.headD []).length) 1).1 1 < 1000000000 := by
    intro i hi h3
    have hi7 : i < 7 := hi
    apply minimax_child_lt_billion 1 MAXP (c10Board.length,
      (c10Board.headD []).length) (Or.inl rfl)
    · interval_cases i
      · decide
      · decide
      · decide
      · exact absurd rfl h3
      · decide
      · decide
      · decide
    · decide
    · interval_cases i
      · decide
      · decide
      · decide
      · exact absurd rfl h3
      · decide
      · decide
      · decide
    · decide
  apply pickMove_unique_best 1 MAXP c10Board 3 (Or.inl rfl) (by decide)
    (by decide) (by decide) (by decide) (by decide) (by decide)
    (by decide) hwin3
  · intro i hi hsucc
    have h7 : c10Board.length = 7 := rfl
    exact hother i (by omega) (by omega)
  · intro i hi hsucc
    by_cases h3 : i = 3
    · rw [h3, hwin3]
    · exact le_of_lt (hother i hi h3)

theorem claim_C10_amended_witness :
    (pickMove 1 1 c10Board).1 = some 3 :=
  claim_C10_amended 1 (le_refl 1)
